import Mathlib

/-!
Shallow embedding of the Subprompt Composition Engine and Hierarchy Manager of
ComfyUI-Prompt-Companion (JavaScript sources `web/extensions.js` and the tree
view component).  JavaScript strings are modelled as `List Char` (`Str`), so
that every string operation used by the code (split, trim, toLowerCase, join)
is an explicit executable Lean function.  JavaScript's `console.warn` calls
during resolution are modelled as an explicit warning list threaded through
the computation in emission order.
-/

set_option maxHeartbeats 1000000

namespace PromptCompanion

/-- JavaScript strings are modelled as lists of characters. -/
abbrev Str := List Char

/-- Whitespace recognised by `String.prototype.trim` (restricted to the ASCII
whitespace characters that can occur in the data handled here). -/
def isWs (c : Char) : Bool :=
  c = ' ' || c = '\t' || c = '\n' || c = '\r'

/-- Model of `s.trim()`: drop whitespace from both ends. -/
def jsTrim (s : Str) : Str :=
  ((s.dropWhile isWs).reverse.dropWhile isWs).reverse

/-- The right-trim half of `jsTrim` (auxiliary decomposition used in proofs):
drop whitespace from the end only. -/
def rdropWs (s : Str) : Str :=
  (s.reverse.dropWhile isWs).reverse

/-- Model of `c.toLowerCase()` for single characters (ASCII case folding). -/
def jsToLower (c : Char) : Char := c.toLower

/-- Model of `s.toLowerCase()`. -/
def lowerStr (s : Str) : Str := s.map jsToLower

/-- Model of `s.split(sep)` for a single-character separator `sep`, matching
JavaScript semantics: the result is never empty and keeps empty chunks. -/
def splitOnChar (c : Char) : Str → List Str
  | [] => [[]]
  | x :: xs =>
    if x = c then
      [] :: splitOnChar c xs
    else
      match splitOnChar c xs with
      | [] => [[x]]
      | y :: ys => (x :: y) :: ys

/-- Model of `s.split(': ')`, the two-character separator used by the
subprompt reference tokens. -/
def splitColonSpace : Str → List Str
  | [] => [[]]
  | ':' :: ' ' :: rest => [] :: splitColonSpace rest
  | x :: xs =>
    match splitColonSpace xs with
    | [] => [[x]]
    | y :: ys => (x :: y) :: ys

/-- Model of `parts.join(sep)` (`List.intercalate` on character lists). -/
def joinStr (sep : Str) (parts : List Str) : Str :=
  List.intercalate sep parts

/-- The separator `", "` used when re-joining deduplicated terms. -/
def commaSpace : Str := [',', ' ']

/-- The inner loop of `removeDuplicateTerms`: walk the term list keeping the
first occurrence of each term, where the `seen` set holds lowercased terms
(the JavaScript code uses a `Set` of `term.toLowerCase()` values). -/
def dedupKeepFirst : List Str → List Str → List Str
  | [], _ => []
  | t :: rest, seen =>
    if lowerStr t ∈ seen then
      dedupKeepFirst rest seen
    else
      t :: dedupKeepFirst rest (lowerStr t :: seen)

/-- Splitting a string into its trimmed, non-empty comma-separated terms:
`text.split(',').map(term => term.trim()).filter(term => term.length > 0)`. -/
def termsOf (text : Str) : List Str :=
  ((splitOnChar ',' text).map jsTrim).filter (fun t => decide (t ≠ []))

/-- Model of `removeDuplicateTerms` (extensions.js): split on comma, trim,
drop empty terms, keep the first occurrence of each term case-insensitively
(retaining the first-seen casing) and re-join with `", "`.  The guard
`if (!text || !text.trim()) return text;` returns blank input unchanged. -/
def removeDuplicateTerms (text : Str) : Str :=
  if text = [] ∨ jsTrim text = [] then text
  else joinStr commaSpace (dedupKeepFirst (termsOf text) [])

/-- The deduplication pass exactly as the specification words it (used to
compare against `removeDuplicateTerms`): split on comma, trim surrounding
whitespace from each term, drop empty terms, keep the first occurrence of
each term case-insensitively retaining the first-seen casing, and re-join
the kept terms with `", "`.  (No blank-input guard is mentioned there.) -/
def specDedupPass (text : Str) : Str :=
  joinStr commaSpace (dedupKeepFirst (termsOf text) [])

/-- A subprompt record as handled by the resolution engine: a display name,
the legacy folder path used by reference-token lookup, the positive/negative
texts, and the ordered token list (`order`).  A token is either the literal
`"attached"` self-marker or a reference to another subprompt. -/
structure Subprompt where
  name : Str
  folder_path : Str
  positive : Str
  negative : Str
  order : List Str
deriving DecidableEq

/-- The literal self-marker token `"attached"`. -/
def attachedTok : Str := "attached".data

/-- Model of the reference-token lookup inside `resolveSubpromptRecursively`:
a token of the form `"folder_path: name"` is matched on both components, a
legacy token `"folder/…/name"` is split on `'/'` (last component is the
name), and a plain token is matched as a root-level subprompt name (the
JavaScript condition `!sp.folder_path || sp.folder_path === ''` amounts to:
empty path). -/
def findNested (all : List Subprompt) (nestedId : Str) : Option Subprompt :=
  if (splitColonSpace nestedId).length > 1 then
    all.find? (fun sp =>
      decide (sp.name = (splitColonSpace nestedId).getD 1 [] ∧
        sp.folder_path = (splitColonSpace nestedId).getD 0 []))
  else if nestedId.contains '/' then
    all.find? (fun sp =>
      decide (sp.name = (splitOnChar '/' nestedId).getLastD [] ∧
        sp.folder_path = joinStr ['/'] (splitOnChar '/' nestedId).dropLast))
  else
    all.find? (fun sp => decide (sp.name = nestedId ∧ sp.folder_path = []))

/-- The warnings surfaced via `console.warn` during resolution. -/
inductive Warning where
  | circular (id : Str)
  | notFound (id : Str) (idx : Nat)
deriving DecidableEq

/-- Comma-join used by the accumulators:
`if (acc) acc += ", " + piece; else acc = piece;`. -/
def appendPiece (acc piece : Str) : Str :=
  if acc ≠ [] then acc ++ commaSpace ++ piece else piece

/-- Append a text to an accumulator, guarded by `if (text && text.trim())`,
appending the trimmed text. -/
def addText (own acc : Str) : Str :=
  if jsTrim own ≠ [] then appendPiece acc (jsTrim own) else acc

/-- All reference tokens occurring in the snapshot's `order` lists; used only
for the termination measure of the resolver. -/
def tokenUniverse (all : List Subprompt) : Finset Str :=
  all.foldr (fun sp acc => sp.order.toFinset ∪ acc) ∅

/-- Model of `resolveSubpromptRecursively`'s token loop: `sp` is the
subprompt being resolved, the tokens are the remaining entries of its
`order` list (`idx` is the loop index, used only in warnings), `visited` is
the path-scoped set of already-entered reference tokens, and `accP`/`accN`
are the positive/negative accumulators.  Warnings are threaded through in
emission order. -/
def resolveGo (all : List Subprompt) :
    Subprompt → List Str → Nat → Finset Str → Str → Str → List Warning →
      Str × Str × List Warning
  | _, [], _, _, accP, accN, warns => (accP, accN, warns)
  | sp, t :: rest, idx, visited, accP, accN, warns =>
    if t = attachedTok then
      resolveGo all sp rest (idx + 1) visited
        (addText sp.positive accP) (addText sp.negative accN) warns
    else if t ∈ visited then
      resolveGo all sp rest (idx + 1) visited accP accN (warns ++ [Warning.circular t])
    else
      match hfind : findNested all t with
      | none =>
        resolveGo all sp rest (idx + 1) visited accP accN (warns ++ [Warning.notFound t idx])
      | some nsp =>
        let nested := resolveGo all nsp nsp.order 0 (insert t visited) [] [] warns
        resolveGo all sp rest (idx + 1) visited
          (addText nested.1 accP) (addText nested.2.1 accN) nested.2.2
termination_by sp tokens idx visited accP accN warns =>
  (((tokenUniverse all ∪ tokens.toFinset) \ visited).card, tokens.length)
decreasing_by
  all_goals
    first
    | · -- stepping to the rest of the token list: the token universe shrinks
        -- or stays, and the token list gets shorter
        have hle : ((tokenUniverse all ∪ rest.toFinset) \ visited).card
            ≤ ((tokenUniverse all ∪ (t :: rest).toFinset) \ visited).card := by
          refine Finset.card_le_card (Finset.sdiff_subset_sdiff ?_ le_rfl)
          refine Finset.union_subset_union_right ?_
          intro x hx
          simp only [List.toFinset_cons, Finset.mem_insert]
          exact Or.inr hx
        rcases lt_or_eq_of_le hle with hlt | heq
        · exact Prod.Lex.left _ _ hlt
        · rw [heq]
          exact Prod.Lex.right _ (Nat.lt_succ_self _)
    | · -- recursing into a found subprompt: the entered token is removed
        -- from the universe
        refine Prod.Lex.left _ _ ?_
        have hmem : nsp ∈ all := by
          unfold findNested at hfind
          split at hfind
          · exact List.mem_of_find?_eq_some hfind
          · split at hfind <;> exact List.mem_of_find?_eq_some hfind
        have hordsub : nsp.order.toFinset ⊆ tokenUniverse all := by
          clear hfind
          revert hmem
          induction all with
          | nil => intro hmem; cases hmem
          | cons a as ih =>
            intro hmem
            rcases List.mem_cons.mp hmem with h | h
            · subst h
              exact Finset.subset_union_left
            · exact (ih h).trans Finset.subset_union_right
        have hUV : tokenUniverse all ∪ nsp.order.toFinset
            ⊆ tokenUniverse all ∪ (t :: rest).toFinset :=
          Finset.union_subset Finset.subset_union_left
            (hordsub.trans Finset.subset_union_left)
        have hsub : (tokenUniverse all ∪ nsp.order.toFinset) \ insert t visited
            ⊆ (tokenUniverse all ∪ (t :: rest).toFinset) \ visited := by
          intro x hx
          simp only [Finset.mem_sdiff, Finset.mem_insert, not_or] at hx
          exact Finset.mem_sdiff.mpr ⟨hUV hx.1, hx.2.2⟩
        refine Finset.card_lt_card ((Finset.ssubset_iff_of_subset hsub).mpr ⟨t, ?_, ?_⟩)
        · refine Finset.mem_sdiff.mpr ⟨?_, by assumption⟩
          simp [List.toFinset_cons]
        · simp

/-- Model of `resolveSubpromptRecursively(subprompt, visited)`: iterate the
`order` tokens starting with empty accumulators. -/
def resolveSubpromptRecursively (all : List Subprompt) (sp : Subprompt)
    (visited : Finset Str) : Str × Str × List Warning :=
  resolveGo all sp sp.order 0 visited [] [] []

/-- The resolved positive/negative text pair. -/
structure Res where
  positive : Str
  negative : Str
deriving DecidableEq

/-- Model of the top-level resolution (`updateResolvedContent`): recursive
resolution from an empty visited set followed by the deduplication pass on
each accumulator, paired with the warnings emitted along the way. -/
def resolve (all : List Subprompt) (root : Subprompt) : Res × List Warning :=
  let r := resolveSubpromptRecursively all root ∅
  (⟨removeDuplicateTerms r.1, removeDuplicateTerms r.2.1⟩, r.2.2)

/-! ### Hierarchy manager: folders, tree building, paths, drag-and-drop -/

/-- A folder record: id, display name, and nullable parent id. -/
structure Folder where
  id : Str
  name : Str
  parent_id : Option Str
deriving DecidableEq

/-- JavaScript truthiness of a nullable string field: `null`/`undefined` and
the empty string are falsy. -/
def truthyOpt : Option Str → Bool
  | none => false
  | some s => !s.isEmpty

/-- Keyed lookup `folderLookup[id]` over a folder collection. -/
def lookupFolder (m : List Folder) (fid : Str) : Option Folder :=
  m.find? (fun f => decide (f.id = fid))

/-- The ids present in a folder collection (termination measure only). -/
def folderIds (m : List Folder) : Finset Str :=
  m.foldr (fun f acc => insert f.id acc) ∅

/-- The id tracked by the current loop position (termination measure only). -/
def optIds : Option Folder → Finset Str
  | none => ∅
  | some f => {f.id}

/-- Model of the `while (current && !visited.has(current.id))` loop of
`buildPathFromFolder`: prepend the current folder's name, mark it visited,
and follow `parent_id` (a falsy `parent_id` breaks out of the loop). -/
def buildPathLoop (lookup : List Folder) :
    Option Folder → Finset Str → List Str → List Str
  | none, _, parts => parts
  | some c, visited, parts =>
    if c.id ∈ visited then parts
    else
      match c.parent_id with
      | some p =>
        if p = [] then c.name :: parts
        else buildPathLoop lookup (lookupFolder lookup p) (insert c.id visited) (c.name :: parts)
      | none => c.name :: parts
termination_by cur visited parts => ((folderIds lookup ∪ optIds cur) \ visited).card
decreasing_by
  have hsub : optIds (lookupFolder lookup p) ⊆ folderIds lookup := by
    cases hl : lookupFolder lookup p with
    | none => simp [optIds]
    | some f =>
      have hmem : f ∈ lookup := List.mem_of_find?_eq_some hl
      intro x hx
      simp only [optIds, Finset.mem_singleton] at hx
      subst hx
      revert hmem
      clear hl
      induction lookup with
      | nil => intro hmem; cases hmem
      | cons a as ih =>
        intro hmem
        rcases List.mem_cons.mp hmem with h | h
        · subst h
          simp [folderIds]
        · simp only [folderIds, List.foldr_cons, Finset.mem_insert]
          exact Or.inr (ih h)
  have hUV : folderIds lookup ∪ optIds (lookupFolder lookup p)
      ⊆ folderIds lookup ∪ optIds (some c) :=
    Finset.union_subset Finset.subset_union_left
      (hsub.trans Finset.subset_union_left)
  have hsd : (folderIds lookup ∪ optIds (lookupFolder lookup p)) \ insert c.id visited
      ⊆ (folderIds lookup ∪ optIds (some c)) \ visited := by
    intro x hx
    simp only [Finset.mem_sdiff, Finset.mem_insert, not_or] at hx
    exact Finset.mem_sdiff.mpr ⟨hUV hx.1, hx.2.2⟩
  refine Finset.card_lt_card ((Finset.ssubset_iff_of_subset hsd).mpr ⟨c.id, ?_, ?_⟩)
  · refine Finset.mem_sdiff.mpr ⟨?_, by assumption⟩
    simp [optIds]
  · simp

/-- Model of `buildPathFromFolder(folder, folderLookup)`: a folder with a
falsy `parent_id` is its own path; otherwise walk the parent chain with a
visited set and join the collected names with `'/'`. -/
def buildPathFromFolder (lookup : List Folder) (folder : Folder) : Str :=
  match folder.parent_id with
  | none => folder.name
  | some p =>
    if p = [] then folder.name
    else joinStr ['/'] (buildPathLoop lookup (some folder) ∅ [])

/-- The `maxDepth` cap of `calculateFolderPath`. -/
def maxPathDepth : Nat := 20

/-- Model of the `while (currentFolder && depth < maxDepth)` loop of
`calculateFolderPath` (extensions.js): prepend the current name and follow
`parent_id` through the folder map, for at most `fuel` steps. -/
def calcPathLoop (folderMap : List Folder) :
    Option Folder → Nat → List Str → List Str
  | _, 0, parts => parts
  | none, _ + 1, parts => parts
  | some c, fuel + 1, parts =>
    calcPathLoop folderMap
      (match c.parent_id with
       | some p => if p = [] then none else lookupFolder folderMap p
       | none => none)
      fuel (c.name :: parts)

/-- Model of `calculateFolderPath(folderId)` (extensions.js): empty result
for a falsy id or an empty folder collection, otherwise the capped
parent-chain walk joined with `'/'`. -/
def calculateFolderPath (folders : List Folder) (folderId : Str) : Str :=
  if folderId = [] then []
  else if folders.isEmpty then []
  else joinStr ['/'] (calcPathLoop folders (lookupFolder folders folderId) maxPathDepth [])

/-- The `'root'` sentinel id of the tree view. -/
def rootId : Str := "root".data

/-- The item kinds handled by the tree view's drag-and-drop. -/
inductive ItemType where
  | folder
  | subprompt
deriving DecidableEq

/-- A tree item as carried by drag-and-drop: its type, id, and the two
folder-reference fields present on subprompt items. -/
structure TreeItem where
  itemType : ItemType
  id : Str
  folder_id : Option Str
  folderId : Option Str
deriving DecidableEq

/-- `sourceItem.folder_id || sourceItem.folderId || 'root'`. -/
def currentFolderIdOf (it : TreeItem) : Str :=
  if truthyOpt it.folder_id then it.folder_id.getD []
  else if truthyOpt it.folderId then it.folderId.getD []
  else rootId

/-- The target folder chosen by `handleDrop`: a folder target is itself, a
subprompt target contributes `targetItem.folderId || 'root'`. -/
def targetFolderIdOf (t : TreeItem) : Str :=
  if t.itemType = ItemType.folder then t.id
  else if truthyOpt t.folderId then t.folderId.getD []
  else rootId

/-- Model of `handleDrop(event, targetItem)`'s decision logic: `none` means
the drop is rejected (early `return`), `some (source, targetFolderId)` means
`moveItem(sourceItem, targetFolderId)` is invoked. -/
def handleDrop (source target : TreeItem) : Option (TreeItem × Str) :=
  if source.itemType = ItemType.subprompt ∧ target.itemType = ItemType.subprompt
      ∧ source.id = target.id then none
  else if source.itemType = ItemType.folder ∧ target.itemType = ItemType.folder
      ∧ source.id = target.id then none
  else if source.itemType = ItemType.subprompt ∧ target.itemType = ItemType.folder
      ∧ currentFolderIdOf source = target.id then none
  else some (source, targetFolderIdOf target)

/-- Model of the mutation actually applied by `moveItem(item, targetFolderId)`
after a drop: only subprompt items are sent to the store (`moveItem`'s body
is guarded by `item.type === 'subprompt'`); folder items produce no
mutation.  The result is the moved subprompt id and its new folder target. -/
def dropMutation (source target : TreeItem) : Option (Str × Str) :=
  match handleDrop source target with
  | some (it, tfid) =>
    if it.itemType = ItemType.subprompt then some (it.id, tfid) else none
  | none => none

/-- Modelled from the spec: the ancestor id chain of a folder, walking from
it up the `parent_id` chain (bounded by a fuel larger than the collection).
Used only to express descendant-ness in the reparent-validation claim; the
source contains no `validateReparent` implementation. -/
def chainIds (folders : List Folder) : Option Folder → Nat → List Str
  | _, 0 => []
  | none, _ + 1 => []
  | some f, fuel + 1 =>
    f.id :: chainIds folders
      (match f.parent_id with
       | some p => lookupFolder folders p
       | none => none) fuel

/-- Modelled from the spec: `validateReparent(nodeId, newParentId)` confirms
that `newParentId` is not `nodeId` itself and is not a descendant of
`nodeId`, by walking from `newParentId` up to the root and checking that
`nodeId` never appears; `true` means the move is allowed.  No such
validation exists in the source — `handleDrop` is the code's only pre-move
check. -/
def specValidateReparent (folders : List Folder) (nodeId newParentId : Str) : Bool :=
  decide (newParentId ≠ nodeId ∧
    nodeId ∉ chainIds folders (lookupFolder folders newParentId) (folders.length + 1))

/-! ### Tree building (`organizeTreeData`) -/

/-- A subprompt record as seen by the tree view: id, name, nullable
`folder_id` and legacy `folder_path`. -/
structure SubObj where
  id : Str
  name : Str
  folder_id : Option Str
  folder_path : Str
deriving DecidableEq

/-- The folder arena after the first pass of `organizeTreeData`: the folders
from the snapshot, plus the virtual `'root'` folder appended when no folder
with id `'root'` exists. -/
def allFoldersWithRoot (foldersData : List Folder) : List Folder :=
  if foldersData.any (fun f => decide (f.id = rootId)) then foldersData
  else foldersData ++ [⟨rootId, "Root".data, none⟩]

/-- Model of `findFolderIdByPath(path, folderLookup)`: `'root'` for an empty
path, else the first folder whose computed path equals `path`, else null. -/
def findFolderIdByPath (foldersData : List Folder) (path : Str) : Option Str :=
  if path = [] then some rootId
  else (foldersData.find? (fun f => decide (buildPathFromFolder foldersData f = path))).map
    (fun f => f.id)

/-- The folder a subprompt is assigned to in the second pass of
`organizeTreeData`: its `folder_id` when truthy and present in the arena,
else the legacy `folder_path` lookup (defaulting to `'root'`), else
`'root'`. -/
def subTargetFolder (foldersData : List Folder) (s : SubObj) : Str :=
  if truthyOpt s.folder_id
      ∧ (allFoldersWithRoot foldersData).any
          (fun f => decide (f.id = s.folder_id.getD [])) then
    s.folder_id.getD []
  else if ¬s.folder_path.isEmpty then
    (findFolderIdByPath foldersData s.folder_path).getD rootId
  else rootId

/-- The subprompt children pushed onto a folder's `children` array in the
second pass, in snapshot order. -/
def childrenOf (foldersData : List Folder) (subs : List SubObj) (fid : Str) : List Str :=
  (subs.filter (fun s => decide (subTargetFolder foldersData s = fid))).map (fun s => s.id)

/-- The folders pushed onto a folder's `subfolders` array in the third pass:
folders with a truthy `parent_id` equal to `fid`, not the root sentinel,
whose parent exists in the arena. -/
def subfoldersOf (foldersData : List Folder) (fid : Str) : List Str :=
  ((allFoldersWithRoot foldersData).filter (fun f =>
    truthyOpt f.parent_id && decide (f.id ≠ rootId)
      && decide (f.parent_id.getD [] = fid)
      && (allFoldersWithRoot foldersData).any
          (fun g => decide (g.id = f.parent_id.getD [])))).map (fun f => f.id)

/-- The folders collected into `rootFolders` in the third pass: non-root
folders whose `parent_id` is falsy, or whose parent is absent from the
arena. -/
def rootFoldersOf (foldersData : List Folder) : List Str :=
  ((allFoldersWithRoot foldersData).filter (fun f =>
    decide (f.id ≠ rootId)
      && (!truthyOpt f.parent_id
          || !(allFoldersWithRoot foldersData).any
              (fun g => decide (g.id = f.parent_id.getD []))))).map (fun f => f.id)

/-! ### Basic lemmas about the string model -/

theorem splitOnChar_ne_nil (c : Char) (s : Str) : splitOnChar c s ≠ [] := by
  induction s with
  | nil => simp [splitOnChar]
  | cons x xs ih =>
    by_cases h : x = c
    · simp [splitOnChar, h]
    · simp only [splitOnChar, if_neg h]
      cases hs : splitOnChar c xs with
      | nil => simp
      | cons y ys => simp

theorem mem_splitOnChar_not_sep {c : Char} {s : Str} :
    ∀ x ∈ splitOnChar c s, c ∉ x := by
  induction s with
  | nil =>
    intro x hx
    simp only [splitOnChar, List.mem_singleton] at hx
    subst hx
    simp
  | cons a as ih =>
    intro x hx
    by_cases h : a = c
    · simp only [splitOnChar, if_pos h] at hx
      rcases List.mem_cons.mp hx with h1 | h1
      · subst h1; simp
      · exact ih x h1
    · simp only [splitOnChar, if_neg h] at hx
      cases hs : splitOnChar c as with
      | nil => exact absurd hs (splitOnChar_ne_nil c as)
      | cons y ys =>
        rw [hs] at hx
        rcases List.mem_cons.mp hx with h1 | h1
        · subst h1
          intro hc
          rcases List.mem_cons.mp hc with h2 | h2
          · exact h h2.symm
          · exact ih y (hs ▸ List.mem_cons_self y ys) h2
        · exact ih x (hs ▸ List.mem_cons.mpr (Or.inr h1))

theorem splitOnChar_of_not_mem {c : Char} {s : Str} (h : c ∉ s) :
    splitOnChar c s = [s] := by
  induction s with
  | nil => rfl
  | cons a as ih =>
    have ha : ¬a = c := fun hac => h (hac ▸ List.mem_cons_self a as)
    have has : c ∉ as := fun hc => h (List.mem_cons.mpr (Or.inr hc))
    simp [splitOnChar, ha, ih has]

theorem splitOnChar_append_sep (c : Char) (u v : Str) :
    splitOnChar c (u ++ c :: v) = splitOnChar c u ++ splitOnChar c v := by
  induction u with
  | nil => simp [splitOnChar]
  | cons a as ih =>
    by_cases h : a = c
    · simp [splitOnChar, h, ih]
    · cases hs : splitOnChar c as with
      | nil => exact absurd hs (splitOnChar_ne_nil c as)
      | cons y ys => simp [splitOnChar, h, ih, hs]

theorem jsTrim_nil : jsTrim [] = [] := rfl

theorem jsTrim_cons_ws {x : Char} (hx : isWs x = true) (s : Str) :
    jsTrim (x :: s) = jsTrim s := by
  simp [jsTrim, List.dropWhile_cons_of_pos hx]

theorem jsTrim_eq_nil_iff {s : Str} : jsTrim s = [] ↔ ∀ c ∈ s, isWs c := by
  unfold jsTrim
  rw [List.reverse_eq_nil_iff, List.dropWhile_eq_nil_iff]
  constructor
  · intro h c hc
    have hsplit := List.takeWhile_append_dropWhile (p := isWs) (l := s)
    rw [← hsplit] at hc
    rcases List.mem_append.mp hc with h1 | h1
    · exact List.mem_takeWhile_imp h1
    · exact h c (List.mem_reverse.mpr h1)
  · intro h c hc
    exact h c ((List.dropWhile_sublist isWs).subset (List.mem_reverse.mp hc))

theorem mem_of_mem_jsTrim {a : Char} {s : Str} (h : a ∈ jsTrim s) : a ∈ s := by
  unfold jsTrim at h
  exact (List.dropWhile_sublist isWs).subset
    (List.mem_reverse.mp ((List.dropWhile_sublist isWs).subset (List.mem_reverse.mp h)))

theorem jsTrim_eq_rdropWs (s : Str) : jsTrim s = rdropWs (s.dropWhile isWs) := rfl

theorem dropWhile_head_not {p : Char → Bool} {l : Str} {x : Char} {xs : Str}
    (h : l.dropWhile p = x :: xs) : p x = false := by
  induction l generalizing x xs with
  | nil => simp [List.dropWhile] at h
  | cons a as ih =>
    by_cases ha : p a
    · rw [List.dropWhile_cons_of_pos ha] at h
      exact ih h
    · rw [List.dropWhile_cons_of_neg ha] at h
      injection h with h1 _
      subst h1
      simpa using ha

theorem dropWhile_dropWhile (p : Char → Bool) (l : Str) :
    (l.dropWhile p).dropWhile p = l.dropWhile p := by
  cases h : l.dropWhile p with
  | nil => rfl
  | cons x xs =>
    rw [List.dropWhile_cons_of_neg]
    simp [dropWhile_head_not h]

theorem rdropWs_rdropWs (s : Str) : rdropWs (rdropWs s) = rdropWs s := by
  unfold rdropWs
  rw [List.reverse_reverse, dropWhile_dropWhile]

theorem rdropWs_eq_nil_iff {s : Str} : rdropWs s = [] ↔ ∀ c ∈ s, isWs c := by
  unfold rdropWs
  rw [List.reverse_eq_nil_iff, List.dropWhile_eq_nil_iff]
  constructor
  · intro h c hc
    exact h c (List.mem_reverse.mpr hc)
  · intro h c hc
    exact h c (List.mem_reverse.mp hc)

theorem rdropWs_cons (x : Char) (xs : Str) :
    rdropWs (x :: xs) =
      if isWs x = true ∧ rdropWs xs = [] then [] else x :: rdropWs xs := by
  unfold rdropWs
  rw [List.reverse_cons, List.dropWhile_append]
  by_cases hxs : (xs.reverse.dropWhile isWs).isEmpty
  · have hnil : xs.reverse.dropWhile isWs = [] := by
      simpa [List.isEmpty_iff] using hxs
    rw [if_pos hxs, hnil]
    by_cases hx : isWs x
    · rw [List.dropWhile_cons_of_pos hx]
      simp [hx, hnil]
    · rw [List.dropWhile_cons_of_neg hx]
      simp [hx, hnil]
  · have hnil : xs.reverse.dropWhile isWs ≠ [] := by
      simpa [List.isEmpty_iff] using hxs
    rw [if_neg hxs, if_neg]
    · simp
    · rintro ⟨_, habs⟩
      exact hnil (by simpa [List.reverse_eq_nil_iff] using habs)

theorem dropWhile_rdropWs_comm (l : Str) :
    (rdropWs l).dropWhile isWs = rdropWs (l.dropWhile isWs) := by
  induction l with
  | nil => rfl
  | cons x xs ih =>
    by_cases hx : isWs x
    · rw [List.dropWhile_cons_of_pos hx]
      by_cases hnil : rdropWs xs = []
      · have hall : ∀ c ∈ xs, isWs c = true := rdropWs_eq_nil_iff.mp hnil
        have hallc : rdropWs (x :: xs) = [] := by
          refine rdropWs_eq_nil_iff.mpr ?_
          intro c hc
          rcases List.mem_cons.mp hc with h | h
          · subst h; exact hx
          · exact hall c h
        rw [hallc, List.dropWhile_eq_nil_iff.mpr hall]
        rfl
      · rw [rdropWs_cons, if_neg (by rintro ⟨_, habs⟩; exact hnil habs),
          List.dropWhile_cons_of_pos hx, ih]
    · rw [List.dropWhile_cons_of_neg hx, rdropWs_cons,
        if_neg (by rintro ⟨habs, _⟩; exact hx habs), List.dropWhile_cons_of_neg hx]

theorem jsTrim_idem (s : Str) : jsTrim (jsTrim s) = jsTrim s := by
  rw [jsTrim_eq_rdropWs, jsTrim_eq_rdropWs, dropWhile_rdropWs_comm,
    dropWhile_dropWhile, rdropWs_rdropWs]

theorem dropWhile_eq_self_of_trim {s : Str} (h : jsTrim s = s) :
    s.dropWhile isWs = s := by
  have h0 : List.Sublist (List.dropWhile isWs ((s.dropWhile isWs).reverse))
      ((s.dropWhile isWs).reverse) := List.dropWhile_sublist isWs
  have h1 : List.Sublist (rdropWs (s.dropWhile isWs)) (s.dropWhile isWs) := by
    unfold rdropWs
    have := h0.reverse
    simpa using this
  have h2 : List.Sublist (s.dropWhile isWs) s := List.dropWhile_sublist isWs
  have hlen : s.length ≤ (s.dropWhile isWs).length := by
    have := h1.length_le
    rw [← jsTrim_eq_rdropWs, h] at this
    exact this
  exact h2.eq_of_length (Nat.le_antisymm h2.length_le hlen)

theorem rdropWs_eq_self_of_trim {s : Str} (h : jsTrim s = s) : rdropWs s = s := by
  have := jsTrim_eq_rdropWs s
  rw [dropWhile_eq_self_of_trim h] at this
  rw [← this, h]

theorem head_not_ws_of_trim {s : Str} {x : Char} {xs : Str} (h : jsTrim s = s)
    (hx : s = x :: xs) : isWs x = false :=
  dropWhile_head_not (by rw [dropWhile_eq_self_of_trim h, hx])

theorem jsTrim_eq_self_of_ends {s : Str}
    (hhead : ∀ x xs, s = x :: xs → isWs x = false)
    (hlast : ∀ y ys, s.reverse = y :: ys → isWs y = false) :
    jsTrim s = s := by
  have hdrop : s.dropWhile isWs = s := by
    cases hs : s with
    | nil => rfl
    | cons x xs => rw [List.dropWhile_cons_of_neg (by simp [hhead x xs hs])]
  have hr : rdropWs s = s := by
    unfold rdropWs
    cases hs : s.reverse with
    | nil =>
      simp [List.reverse_eq_nil_iff.mp hs]
    | cons y ys =>
      rw [List.dropWhile_cons_of_neg (by simp [hlast y ys hs]), ← hs,
        List.reverse_reverse]
  rw [jsTrim_eq_rdropWs, hdrop, hr]

theorem jsTrim_append_piece {u v : Str} (hu : jsTrim u = u) (hv : jsTrim v = v)
    (hv0 : v ≠ []) : jsTrim (u ++ commaSpace ++ v) = u ++ commaSpace ++ v := by
  refine jsTrim_eq_self_of_ends ?_ ?_
  · intro x xs hx
    cases u with
    | nil =>
      simp only [List.nil_append, commaSpace] at hx
      injection hx with h1 _
      subst h1
      decide
    | cons a u' =>
      have hxa : x = a := by
        simp only [List.cons_append, List.append_assoc] at hx
        exact (List.cons.injEq .. ▸ hx).1.symm ▸ rfl
      subst hxa
      exact head_not_ws_of_trim hu rfl
  · intro y ys hy
    cases hv' : v.reverse with
    | nil => exact absurd (List.reverse_eq_nil_iff.mp hv') hv0
    | cons b vs =>
      have hb : isWs b = false := by
        have hrv : rdropWs v = v := rdropWs_eq_self_of_trim hv
        unfold rdropWs at hrv
        rw [hv'] at hrv
        have : (b :: vs).dropWhile isWs = b :: vs := by
          have hinj := congrArg List.reverse hrv
          rw [List.reverse_reverse] at hinj
          rw [hinj, hv']
        exact dropWhile_head_not this
      have : (u ++ commaSpace ++ v).reverse = b :: (vs ++ (commaSpace.reverse ++ u.reverse)) := by
        rw [List.reverse_append, List.reverse_append, hv']
        simp
      rw [this] at hy
      injection hy with h1 _
      subst h1
      exact hb

theorem joinStr_nil (sep : Str) : joinStr sep [] = [] := rfl

theorem joinStr_singleton (sep : Str) (a : Str) : joinStr sep [a] = a := by
  simp [joinStr, List.intercalate]

theorem joinStr_cons_cons (sep : Str) (a b : Str) (l : List Str) :
    joinStr sep (a :: b :: l) = a ++ sep ++ joinStr sep (b :: l) := by
  simp [joinStr, List.intercalate]

theorem termsOf_nil : termsOf [] = [] := by decide

theorem termsOf_cons_ws {x : Char} (hx : isWs x = true) (s : Str) :
    termsOf (x :: s) = termsOf s := by
  have hxc : ¬x = ',' := by
    intro h
    subst h
    simp [isWs] at hx
  cases hs : splitOnChar ',' s with
  | nil => exact absurd hs (splitOnChar_ne_nil ',' s)
  | cons y ys =>
    simp only [termsOf, splitOnChar, if_neg hxc, hs, List.map_cons, List.filter_cons,
      jsTrim_cons_ws hx]

theorem termsOf_sep_append (u v : Str) :
    termsOf (u ++ commaSpace ++ v) = termsOf u ++ termsOf v := by
  have heq : u ++ commaSpace ++ v = u ++ ',' :: (' ' :: v) := by
    simp [commaSpace]
  rw [heq]
  have hsplit := splitOnChar_append_sep ',' u (' ' :: v)
  simp only [termsOf, hsplit, List.map_append, List.filter_append]
  have := termsOf_cons_ws (x := ' ') (by decide) v
  simp only [termsOf] at this
  rw [this]

theorem termsOf_appendPiece (acc piece : Str) :
    termsOf (appendPiece acc piece) = termsOf acc ++ termsOf piece := by
  unfold appendPiece
  by_cases h : acc = []
  · simp [h, termsOf_nil]
  · simp only [if_pos (by exact h), termsOf_sep_append]

theorem termsOf_addText (own acc : Str) :
    termsOf (addText own acc) = termsOf acc ++ termsOf (jsTrim own) := by
  unfold addText
  by_cases h : jsTrim own = []
  · simp [h, termsOf_nil]
  · simp only [if_pos (by exact h), termsOf_appendPiece]

theorem mem_termsOf_spec {x : Str} {s : Str} (h : x ∈ termsOf s) :
    jsTrim x = x ∧ x ≠ [] ∧ ',' ∉ x := by
  unfold termsOf at h
  have h1 := List.mem_filter.mp h
  have h2 := h1.2
  rcases List.mem_map.mp h1.1 with ⟨y, hy, hxy⟩
  subst hxy
  refine ⟨jsTrim_idem y, by simpa using h2, ?_⟩
  intro hc
  exact mem_splitOnChar_not_sep y hy (mem_of_mem_jsTrim hc)

theorem termsOf_single_good {t : Str} (htr : jsTrim t = t) (h0 : t ≠ [])
    (hc : ',' ∉ t) : termsOf t = [t] := by
  unfold termsOf
  rw [splitOnChar_of_not_mem hc]
  simp [htr, h0]

theorem termsOf_joinStr {L : List Str}
    (h : ∀ t ∈ L, jsTrim t = t ∧ t ≠ [] ∧ ',' ∉ t) :
    termsOf (joinStr commaSpace L) = L := by
  induction L with
  | nil => simpa [joinStr_nil] using termsOf_nil
  | cons t rest ih =>
    cases rest with
    | nil =>
      rcases h t (List.mem_cons_self t []) with ⟨h1, h2, h3⟩
      rw [joinStr_singleton]
      exact termsOf_single_good h1 h2 h3
    | cons t' rest' =>
      rcases h t (List.mem_cons_self t _) with ⟨h1, h2, h3⟩
      rw [joinStr_cons_cons, termsOf_sep_append, termsOf_single_good h1 h2 h3]
      rw [ih (fun u hu => h u (List.mem_cons.mpr (Or.inr hu)))]
      rfl

theorem mem_of_mem_dedupKeepFirst {x : Str} :
    ∀ {l seen : List Str}, x ∈ dedupKeepFirst l seen → x ∈ l := by
  intro l
  induction l with
  | nil => intro seen h; simp [dedupKeepFirst] at h
  | cons t rest ih =>
    intro seen h
    by_cases hs : lowerStr t ∈ seen
    · rw [dedupKeepFirst, if_pos hs] at h
      exact List.mem_cons.mpr (Or.inr (ih h))
    · rw [dedupKeepFirst, if_neg hs] at h
      rcases List.mem_cons.mp h with h1 | h1
      · exact h1 ▸ List.mem_cons_self t rest
      · exact List.mem_cons.mpr (Or.inr (ih h1))

theorem dedupKeepFirst_nodup_and_fresh :
    ∀ (l seen : List Str),
      ((dedupKeepFirst l seen).map lowerStr).Nodup ∧
        ∀ x ∈ dedupKeepFirst l seen, lowerStr x ∉ seen := by
  intro l
  induction l with
  | nil => intro seen; simp [dedupKeepFirst]
  | cons t rest ih =>
    intro seen
    by_cases hs : lowerStr t ∈ seen
    · rw [dedupKeepFirst, if_pos hs]
      exact ih seen
    · rw [dedupKeepFirst, if_neg hs]
      rcases ih (lowerStr t :: seen) with ⟨hnd, hfresh⟩
      refine ⟨?_, ?_⟩
      · rw [List.map_cons, List.nodup_cons]
        refine ⟨?_, hnd⟩
        intro hmem
        rcases List.mem_map.mp hmem with ⟨y, hy, hxy⟩
        exact hfresh y hy (hxy ▸ List.mem_cons_self _ _)
      · intro x hx
        rcases List.mem_cons.mp hx with h1 | h1
        · exact h1 ▸ hs
        · exact fun hmem => hfresh x h1 (List.mem_cons.mpr (Or.inr hmem))

theorem dedupKeepFirst_complete {x : Str} :
    ∀ {l seen : List Str}, x ∈ l →
      lowerStr x ∈ seen ∨ ∃ y ∈ dedupKeepFirst l seen, lowerStr y = lowerStr x := by
  intro l
  induction l with
  | nil => intro seen h; simp at h
  | cons t rest ih =>
    intro seen h
    by_cases hs : lowerStr t ∈ seen
    · rw [dedupKeepFirst, if_pos hs]
      rcases List.mem_cons.mp h with h1 | h1
      · exact Or.inl (h1 ▸ hs)
      · exact ih h1
    · rw [dedupKeepFirst, if_neg hs]
      rcases List.mem_cons.mp h with h1 | h1
      · exact Or.inr ⟨t, List.mem_cons_self _ _, h1 ▸ rfl⟩
      · rcases @ih (lowerStr t :: seen) h1 with h2 | ⟨y, hy, hxy⟩
        · rcases List.mem_cons.mp h2 with h3 | h3
          · exact Or.inr ⟨t, List.mem_cons_self _ _, h3.symm⟩
          · exact Or.inl h3
        · exact Or.inr ⟨y, List.mem_cons.mpr (Or.inr hy), hxy⟩

theorem dedupKeepFirst_eq_self :
    ∀ {l seen : List Str}, (l.map lowerStr).Nodup →
      (∀ x ∈ l, lowerStr x ∉ seen) → dedupKeepFirst l seen = l := by
  intro l
  induction l with
  | nil => intro seen _ _; rfl
  | cons t rest ih =>
    intro seen hnd hfresh
    rw [dedupKeepFirst, if_neg (hfresh t (List.mem_cons_self _ _))]
    rw [List.map_cons, List.nodup_cons] at hnd
    congr 1
    refine ih hnd.2 ?_
    intro x hx hmem
    rcases List.mem_cons.mp hmem with h1 | h1
    · exact hnd.1 (h1 ▸ List.mem_map.mpr ⟨x, hx, rfl⟩)
    · exact hfresh x (List.mem_cons.mpr (Or.inr hx)) h1

theorem termsOf_removeDuplicateTerms (s : Str) :
    termsOf (removeDuplicateTerms s) = dedupKeepFirst (termsOf s) [] := by
  unfold removeDuplicateTerms
  by_cases h : s = [] ∨ jsTrim s = []
  · rw [if_pos h]
    have hterms : termsOf s = [] := by
      rcases h with h | h
      · rw [h]; exact termsOf_nil
      · have hall : ∀ c ∈ s, isWs c := jsTrim_eq_nil_iff.mp h
        have hnc : ',' ∉ s := fun hc => by simpa [isWs] using hall ',' hc
        unfold termsOf
        rw [splitOnChar_of_not_mem hnc]
        simp [h]
    rw [hterms]
    rfl
  · rw [if_neg h]
    refine termsOf_joinStr ?_
    intro t ht
    exact mem_termsOf_spec (mem_of_mem_dedupKeepFirst ht)

theorem nodup_lower_termsOf_removeDuplicateTerms (s : Str) :
    ((termsOf (removeDuplicateTerms s)).map lowerStr).Nodup := by
  rw [termsOf_removeDuplicateTerms]
  exact (dedupKeepFirst_nodup_and_fresh (termsOf s) []).1

theorem lower_mem_termsOf_removeDuplicateTerms {s : Str} {v : Str} :
    (∃ y ∈ termsOf (removeDuplicateTerms s), lowerStr y = v) ↔
      (∃ y ∈ termsOf s, lowerStr y = v) := by
  rw [termsOf_removeDuplicateTerms]
  constructor
  · rintro ⟨y, hy, hv⟩
    exact ⟨y, mem_of_mem_dedupKeepFirst hy, hv⟩
  · rintro ⟨y, hy, hv⟩
    have hc : lowerStr y ∈ ([] : List Str) ∨
        ∃ z ∈ dedupKeepFirst (termsOf s) [], lowerStr z = lowerStr y :=
      dedupKeepFirst_complete hy
    rcases hc with h | ⟨z, hz, hzy⟩
    · simp at h
    · exact ⟨z, hz, hzy.trans hv⟩

theorem joinStr_commaSpace_cons (t : Str) (rest : List Str) :
    ∃ w, joinStr commaSpace (t :: rest) = t ++ w := by
  cases rest with
  | nil => exact ⟨[], by rw [joinStr_singleton]; simp⟩
  | cons b l =>
    exact ⟨commaSpace ++ joinStr commaSpace (b :: l), by rw [joinStr_cons_cons]; simp⟩

/-- C10: the duplicate-term removal function is idempotent: applying
`removeDuplicateTerms` to its own output changes nothing, since that output
consists of trimmed, non-empty, case-insensitively distinct terms joined by
`", "`. -/
theorem removeDuplicateTerms_idempotent (s : Str) :
    removeDuplicateTerms (removeDuplicateTerms s) = removeDuplicateTerms s := by
  by_cases h : s = [] ∨ jsTrim s = []
  · have hs : removeDuplicateTerms s = s := by
      unfold removeDuplicateTerms
      rw [if_pos h]
    rw [hs]
    exact hs
  · have hJ : removeDuplicateTerms s
        = joinStr commaSpace (dedupKeepFirst (termsOf s) []) := by
      unfold removeDuplicateTerms
      rw [if_neg h]
    have hgood : ∀ t ∈ dedupKeepFirst (termsOf s) [],
        jsTrim t = t ∧ t ≠ [] ∧ ',' ∉ t :=
      fun t ht => mem_termsOf_spec (mem_of_mem_dedupKeepFirst ht)
    rw [hJ]
    cases hL : dedupKeepFirst (termsOf s) [] with
    | nil =>
      rw [joinStr_nil]
      unfold removeDuplicateTerms
      rw [if_pos (Or.inl rfl)]
    | cons t rest =>
      have hspec := hgood t (hL ▸ List.mem_cons_self t rest)
      rcases joinStr_commaSpace_cons t rest with ⟨w, hw⟩
      have hJne : joinStr commaSpace (t :: rest) ≠ [] := by
        rw [hw]
        simp [hspec.2.1]
      have hJtrim : jsTrim (joinStr commaSpace (t :: rest)) ≠ [] := by
        intro habs
        have hall := jsTrim_eq_nil_iff.mp habs
        have hnotall : ¬∀ c ∈ t, isWs c = true := by
          intro hallt
          exact hspec.2.1 (by rw [← hspec.1]; exact jsTrim_eq_nil_iff.mpr hallt)
        refine hnotall ?_
        intro c hc
        exact hall c (by rw [hw]; exact List.mem_append.mpr (Or.inl hc))
      rw [removeDuplicateTerms, if_neg (by push_neg; exact ⟨hJne, hJtrim⟩)]
      rw [termsOf_joinStr (hL ▸ hgood)]
      rw [dedupKeepFirst_eq_self
        (hL ▸ (dedupKeepFirst_nodup_and_fresh (termsOf s) []).1)
        (fun x _ hmem => by simp at hmem)]

theorem resolveGo_nil (all : List Subprompt) (sp : Subprompt) (idx : Nat)
    (visited : Finset Str) (accP accN : Str) (warns : List Warning) :
    resolveGo all sp [] idx visited accP accN warns = (accP, accN, warns) := by
  simp [resolveGo]

theorem resolveGo_attached (all : List Subprompt) (sp : Subprompt) {t : Str}
    (rest : List Str) (idx : Nat) (visited : Finset Str) (accP accN : Str)
    (warns : List Warning) (h : t = attachedTok) :
    resolveGo all sp (t :: rest) idx visited accP accN warns
      = resolveGo all sp rest (idx + 1) visited
          (addText sp.positive accP) (addText sp.negative accN) warns := by
  rw [resolveGo]
  simp [h]

theorem resolveGo_circular (all : List Subprompt) (sp : Subprompt) {t : Str}
    (rest : List Str) (idx : Nat) {visited : Finset Str} (accP accN : Str)
    (warns : List Warning) (h : ¬t = attachedTok) (hv : t ∈ visited) :
    resolveGo all sp (t :: rest) idx visited accP accN warns
      = resolveGo all sp rest (idx + 1) visited accP accN
          (warns ++ [Warning.circular t]) := by
  rw [resolveGo]
  simp [h, hv]

theorem resolveGo_stale (all : List Subprompt) (sp : Subprompt) {t : Str}
    (rest : List Str) (idx : Nat) {visited : Finset Str} (accP accN : Str)
    (warns : List Warning) (h : ¬t = attachedTok) (hv : t ∉ visited)
    (hf : findNested all t = none) :
    resolveGo all sp (t :: rest) idx visited accP accN warns
      = resolveGo all sp rest (idx + 1) visited accP accN
          (warns ++ [Warning.notFound t idx]) := by
  rw [resolveGo]
  simp only [if_neg h, if_neg hv]
  split
  · rfl
  · rename_i nsp2 hfind
    rw [hf] at hfind
    simp at hfind

theorem resolveGo_ref (all : List Subprompt) (sp : Subprompt) {t : Str}
    (rest : List Str) (idx : Nat) {visited : Finset Str} (accP accN : Str)
    (warns : List Warning) {nsp : Subprompt} (h : ¬t = attachedTok)
    (hv : t ∉ visited) (hf : findNested all t = some nsp) :
    resolveGo all sp (t :: rest) idx visited accP accN warns
      = resolveGo all sp rest (idx + 1) visited
          (addText (resolveGo all nsp nsp.order 0 (insert t visited) [] [] warns).1 accP)
          (addText (resolveGo all nsp nsp.order 0 (insert t visited) [] [] warns).2.1 accN)
          (resolveGo all nsp nsp.order 0 (insert t visited) [] [] warns).2.2 := by
  rw [resolveGo]
  simp only [if_neg h, if_neg hv]
  split
  · rename_i hfind
    rw [hf] at hfind
    simp at hfind
  · rename_i nsp2 hfind
    have heq := hf.symm.trans hfind
    injection heq with heq
    subst heq
    rfl

theorem jsTrim_addText {own acc : Str} (hacc : jsTrim acc = acc) :
    jsTrim (addText own acc) = addText own acc := by
  unfold addText appendPiece
  by_cases h1 : jsTrim own = []
  · simp [h1, hacc]
  · rw [if_pos (by exact h1)]
    by_cases h2 : acc = []
    · rw [if_neg (by simpa using h2)]
      exact jsTrim_idem own
    · rw [if_pos (by exact h2)]
      exact jsTrim_append_piece hacc (jsTrim_idem own) h1

theorem resolveGo_trimmed (all : List Subprompt) :
    ∀ (sp : Subprompt) (tokens : List Str) (idx : Nat) (visited : Finset Str)
      (accP accN : Str) (warns : List Warning),
      jsTrim accP = accP → jsTrim accN = accN →
      jsTrim (resolveGo all sp tokens idx visited accP accN warns).1
          = (resolveGo all sp tokens idx visited accP accN warns).1 ∧
        jsTrim (resolveGo all sp tokens idx visited accP accN warns).2.1
          = (resolveGo all sp tokens idx visited accP accN warns).2.1 := by
  intro sp tokens idx visited accP accN warns
  induction sp, tokens, idx, visited, accP, accN, warns using resolveGo.induct all with
  | case1 sp idx visited accP accN warns =>
    intro hP hN
    rw [resolveGo_nil]
    exact ⟨hP, hN⟩
  | case2 sp rest idx visited accP accN warns ih =>
    intro hP hN
    rw [resolveGo_attached all sp rest idx visited accP accN warns rfl]
    exact ih (jsTrim_addText hP) (jsTrim_addText hN)
  | case3 sp t rest idx visited accP accN warns h hv ih =>
    intro hP hN
    rw [resolveGo_circular all sp rest idx accP accN warns h hv]
    exact ih hP hN
  | case4 sp t rest idx visited accP accN warns h hv hf ih =>
    intro hP hN
    rw [resolveGo_stale all sp rest idx accP accN warns h hv hf]
    exact ih hP hN
  | case5 sp t rest idx visited accP accN warns h hv nsp hf nested ihn ih =>
    intro hP hN
    rw [resolveGo_ref all sp rest idx accP accN warns h hv hf]
    exact ih (jsTrim_addText hP) (jsTrim_addText hN)

/-- C2: the deduplication pass, applied to the fully merged positive and
negative accumulator strings, agrees with the specified pipeline (split on
comma, trim each term, drop empty terms, keep the first occurrence of each
term case-insensitively retaining first-seen casing, re-join with `", "`);
in particular the resolved output applies exactly that pipeline to each
accumulator, `"dog, golden retriever, dog, long fur"` reduces to
`"dog, golden retriever, long fur"`, and case-insensitive duplicates
collapse to the first-seen casing. -/
theorem removeDuplicateTerms_matches_spec :
    (∀ s : Str, jsTrim s = s → removeDuplicateTerms s = specDedupPass s) ∧
    (∀ (all : List Subprompt) (root : Subprompt),
      (resolve all root).1.positive
          = specDedupPass (resolveSubpromptRecursively all root ∅).1 ∧
        (resolve all root).1.negative
          = specDedupPass (resolveSubpromptRecursively all root ∅).2.1) ∧
    removeDuplicateTerms "dog, golden retriever, dog, long fur".data
        = "dog, golden retriever, long fur".data ∧
    removeDuplicateTerms "Dog, dog, long fur".data = "Dog, long fur".data := by
  have hmain : ∀ s : Str, jsTrim s = s → removeDuplicateTerms s = specDedupPass s := by
    intro s hs
    unfold removeDuplicateTerms specDedupPass
    by_cases h : s = [] ∨ jsTrim s = []
    · rw [if_pos h]
      have hnil : s = [] := by
        rcases h with h | h
        · exact h
        · rw [← hs, h]
      subst hnil
      rw [termsOf_nil]
      rfl
    · rw [if_neg h]
  refine ⟨hmain, ?_, by decide, by decide⟩
  intro all root
  have htr := resolveGo_trimmed all root root.order 0 ∅ [] [] [] rfl rfl
  exact ⟨hmain _ htr.1, hmain _ htr.2⟩

/-- Witness for C2 at concrete inputs. -/
theorem removeDuplicateTerms_matches_spec_witness :
    removeDuplicateTerms "a, b, A".data = specDedupPass "a, b, A".data ∧
      removeDuplicateTerms "dog, golden retriever, dog, long fur".data
        = "dog, golden retriever, long fur".data :=
  ⟨removeDuplicateTerms_matches_spec.1 "a, b, A".data (by decide),
    removeDuplicateTerms_matches_spec.2.2.1⟩

theorem resolveGo_warns_monotone (all : List Subprompt) :
    ∀ (sp : Subprompt) (tokens : List Str) (idx : Nat) (visited : Finset Str)
      (accP accN : Str) (warns : List Warning),
      warns <+: (resolveGo all sp tokens idx visited accP accN warns).2.2 := by
  intro sp tokens idx visited accP accN warns
  induction sp, tokens, idx, visited, accP, accN, warns using resolveGo.induct all with
  | case1 sp idx visited accP accN warns =>
    rw [resolveGo_nil]
  | case2 sp rest idx visited accP accN warns ih =>
    rw [resolveGo_attached all sp rest idx visited accP accN warns rfl]
    exact ih
  | case3 sp t rest idx visited accP accN warns h hv ih =>
    rw [resolveGo_circular all sp rest idx accP accN warns h hv]
    exact List.IsPrefix.trans ⟨[Warning.circular t], rfl⟩ ih
  | case4 sp t rest idx visited accP accN warns h hv hf ih =>
    rw [resolveGo_stale all sp rest idx accP accN warns h hv hf]
    exact List.IsPrefix.trans ⟨[Warning.notFound t idx], rfl⟩ ih
  | case5 sp t rest idx visited accP accN warns h hv nsp hf nested ihn ih =>
    rw [resolveGo_ref all sp rest idx accP accN warns h hv hf]
    exact ihn.trans ih

theorem resolveGo_notFound_mem (all : List Subprompt) :
    ∀ (sp : Subprompt) (tokens : List Str) (idx : Nat) (visited : Finset Str)
      (accP accN : Str) (warns : List Warning) (i : Nat) (t : Str),
      tokens.get? i = some t → ¬t = attachedTok → t ∉ visited →
      findNested all t = none →
      Warning.notFound t (idx + i)
        ∈ (resolveGo all sp tokens idx visited accP accN warns).2.2 := by
  intro sp tokens idx visited accP accN warns
  induction sp, tokens, idx, visited, accP, accN, warns using resolveGo.induct all with
  | case1 sp idx visited accP accN warns =>
    intro i t hget _ _ _
    simp at hget
  | case2 sp rest idx visited accP accN warns ih =>
    intro i t hget hatt hvis hf
    rw [resolveGo_attached all sp rest idx visited accP accN warns rfl]
    cases i with
    | zero =>
      simp only [List.get?_cons_zero, Option.some.injEq] at hget
      exact absurd hget.symm hatt
    | succ j =>
      have := ih j t (by simpa using hget) hatt hvis hf
      simpa [Nat.add_assoc, Nat.add_comm 1 j] using this
  | case3 sp t0 rest idx visited accP accN warns h hv ih =>
    intro i t hget hatt hvis hf
    rw [resolveGo_circular all sp rest idx accP accN warns h hv]
    cases i with
    | zero =>
      simp only [List.get?_cons_zero, Option.some.injEq] at hget
      exact absurd (hget ▸ hv) hvis
    | succ j =>
      have := ih j t (by simpa using hget) hatt hvis hf
      simpa [Nat.add_assoc, Nat.add_comm 1 j] using this
  | case4 sp t0 rest idx visited accP accN warns h hv hf0 ih =>
    intro i t hget hatt hvis hf
    rw [resolveGo_stale all sp rest idx accP accN warns h hv hf0]
    cases i with
    | zero =>
      simp only [List.get?_cons_zero, Option.some.injEq] at hget
      rw [← hget]
      have hpre := resolveGo_warns_monotone all sp rest (idx + 1) visited accP accN
        (warns ++ [Warning.notFound t0 idx])
      refine hpre.subset ?_
      simp
    | succ j =>
      have := ih j t (by simpa using hget) hatt hvis hf
      simpa [Nat.add_assoc, Nat.add_comm 1 j] using this
  | case5 sp t0 rest idx visited accP accN warns h hv nsp hf0 nested ihn ih =>
    intro i t hget hatt hvis hf
    rw [resolveGo_ref all sp rest idx accP accN warns h hv hf0]
    cases i with
    | zero =>
      simp only [List.get?_cons_zero, Option.some.injEq] at hget
      subst hget
      rw [hf0] at hf
      simp at hf
    | succ j =>
      have := ih j t (by simpa using hget) hatt hvis hf
      simpa [Nat.add_assoc, Nat.add_comm 1 j] using this

/-- C5: a stale reference token (one that resolves to no subprompt in the
snapshot) never aborts resolution: the token is skipped as a no-op leaving
the accumulators unchanged, processing continues with the remaining tokens,
and the final result carries a `notFound` warning recording the stale token
and its position; in particular every stale token of the root's order list
is reported in `resolve`'s warning list. -/
theorem resolve_stale_reference :
    (∀ (all : List Subprompt) (sp : Subprompt) (t : Str) (rest : List Str)
      (idx : Nat) (visited : Finset Str) (accP accN : Str) (warns : List Warning),
      ¬t = attachedTok → t ∉ visited → findNested all t = none →
      resolveGo all sp (t :: rest) idx visited accP accN warns
        = resolveGo all sp rest (idx + 1) visited accP accN
            (warns ++ [Warning.notFound t idx])) ∧
    (∀ (all : List Subprompt) (root : Subprompt) (i : Nat) (t : Str),
      root.order.get? i = some t → ¬t = attachedTok → findNested all t = none →
      Warning.notFound t i ∈ (resolve all root).2) := by
  constructor
  · intro all sp t rest idx visited accP accN warns hatt hvis hf
    exact resolveGo_stale all sp rest idx accP accN warns hatt hvis hf
  · intro all root i t hget hatt hf
    have := resolveGo_notFound_mem all root root.order 0 ∅ [] [] [] i t hget hatt
      (by simp) hf
    simpa [resolve, resolveSubpromptRecursively] using this

/-- Witness for C5: a snapshot-free root whose single order token is stale. -/
theorem resolve_stale_reference_witness :
    Warning.notFound "ghost".data 0
      ∈ (resolve [] ⟨"a".data, [], "x".data, [], ["ghost".data]⟩).2 := by
  refine resolve_stale_reference.2 [] ⟨"a".data, [], "x".data, [], ["ghost".data]⟩ 0
    "ghost".data rfl (by decide) ?_
  decide

theorem find?_map_name_path {f : Subprompt → Subprompt}
    (hname : ∀ sp, (f sp).name = sp.name)
    (hpath : ∀ sp, (f sp).folder_path = sp.folder_path)
    (all : List Subprompt) (n p : Str) :
    (all.map f).find? (fun sp => decide (sp.name = n ∧ sp.folder_path = p))
      = (all.find? (fun sp => decide (sp.name = n ∧ sp.folder_path = p))).map f := by
  rw [List.find?_map]
  have hpred : ((fun sp => decide (sp.name = n ∧ sp.folder_path = p)) ∘ f)
      = (fun sp => decide (sp.name = n ∧ sp.folder_path = p)) := by
    funext sp
    simp [Function.comp, hname, hpath]
  rw [hpred]

theorem findNested_map {f : Subprompt → Subprompt}
    (hname : ∀ sp, (f sp).name = sp.name)
    (hpath : ∀ sp, (f sp).folder_path = sp.folder_path)
    (all : List Subprompt) (t : Str) :
    findNested (all.map f) t = (findNested all t).map f := by
  unfold findNested
  split
  · exact find?_map_name_path hname hpath all _ _
  · split
    · exact find?_map_name_path hname hpath all _ _
    · exact find?_map_name_path hname hpath all _ _

theorem resolveGo_map_texts (all : List Subprompt) (f : Subprompt → Subprompt)
    (hname : ∀ sp, (f sp).name = sp.name)
    (hpath : ∀ sp, (f sp).folder_path = sp.folder_path)
    (horder : ∀ sp, (f sp).order = sp.order)
    (hatt : ∀ sp, attachedTok ∈ sp.order → f sp = sp) :
    ∀ (sp : Subprompt) (tokens : List Str) (idx : Nat) (visited : Finset Str)
      (accP accN : Str) (warns : List Warning),
      (attachedTok ∈ tokens →
        (f sp).positive = sp.positive ∧ (f sp).negative = sp.negative) →
      resolveGo (all.map f) (f sp) tokens idx visited accP accN warns
        = resolveGo all sp tokens idx visited accP accN warns := by
  intro sp tokens idx visited accP accN warns
  induction sp, tokens, idx, visited, accP, accN, warns using resolveGo.induct all with
  | case1 sp idx visited accP accN warns =>
    intro _
    rw [resolveGo_nil, resolveGo_nil]
  | case2 sp rest idx visited accP accN warns ih =>
    intro htex
    have hx := htex (List.mem_cons_self _ _)
    rw [resolveGo_attached (all.map f) (f sp) rest idx visited accP accN warns rfl,
      resolveGo_attached all sp rest idx visited accP accN warns rfl, hx.1, hx.2]
    exact ih (fun hm => htex (List.mem_cons.mpr (Or.inr hm)))
  | case3 sp t rest idx visited accP accN warns h hv ih =>
    intro htex
    rw [resolveGo_circular (all.map f) (f sp) rest idx accP accN warns h hv,
      resolveGo_circular all sp rest idx accP accN warns h hv]
    exact ih (fun hm => htex (List.mem_cons.mpr (Or.inr hm)))
  | case4 sp t rest idx visited accP accN warns h hv hf ih =>
    intro htex
    have hf2 : findNested (all.map f) t = none := by
      rw [findNested_map hname hpath, hf]
      rfl
    rw [resolveGo_stale (all.map f) (f sp) rest idx accP accN warns h hv hf2,
      resolveGo_stale all sp rest idx accP accN warns h hv hf]
    exact ih (fun hm => htex (List.mem_cons.mpr (Or.inr hm)))
  | case5 sp t rest idx visited accP accN warns h hv nsp hf nested ihn ih =>
    intro htex
    have hf2 : findNested (all.map f) t = some (f nsp) := by
      rw [findNested_map hname hpath, hf]
      rfl
    rw [resolveGo_ref (all.map f) (f sp) rest idx accP accN warns h hv hf2,
      resolveGo_ref all sp rest idx accP accN warns h hv hf]
    rw [horder nsp]
    have hn := ihn (fun hm => by rw [hatt nsp hm]; exact ⟨rfl, rfl⟩)
    rw [hn]
    exact ih (fun hm => htex (List.mem_cons.mpr (Or.inr hm)))

/-- C7: for a subprompt whose `order` does not contain the `"attached"`
self-marker, the resolved output is independent of that subprompt's own
positive/negative texts: replacing those texts (both in the root and in its
snapshot entries) yields an identical result, i.e. the own text is never
merged in. -/
theorem resolve_ignores_own_text_without_self_marker
    (all : List Subprompt) (A A2 : Subprompt)
    (hname : A2.name = A.name) (hpath : A2.folder_path = A.folder_path)
    (horder : A2.order = A.order) (hA : attachedTok ∉ A.order) :
    resolve (all.map (fun sp => if sp = A then A2 else sp)) A2 = resolve all A := by
  have hfname : ∀ sp, ((fun sp => if sp = A then A2 else sp) sp).name = sp.name := by
    intro sp
    by_cases h : sp = A <;> simp [h, hname]
  have hfpath : ∀ sp,
      ((fun sp => if sp = A then A2 else sp) sp).folder_path = sp.folder_path := by
    intro sp
    by_cases h : sp = A <;> simp [h, hpath]
  have hforder : ∀ sp, ((fun sp => if sp = A then A2 else sp) sp).order = sp.order := by
    intro sp
    by_cases h : sp = A <;> simp [h, horder]
  have hfatt : ∀ sp, attachedTok ∈ sp.order →
      (fun sp => if sp = A then A2 else sp) sp = sp := by
    intro sp hm
    by_cases h : sp = A
    · exact absurd (h ▸ hm) hA
    · simp [h]
  have hmain := resolveGo_map_texts all (fun sp => if sp = A then A2 else sp)
    hfname hfpath hforder hfatt A A.order 0 ∅ [] [] [] (fun hm => absurd hm hA)
  have hfA : (fun sp => if sp = A then A2 else sp) A = A2 := by simp
  rw [hfA] at hmain
  unfold resolve resolveSubpromptRecursively
  rw [horder, hmain]

/-- Witness for C7 at a concrete snapshot. -/
theorem resolve_ignores_own_text_without_self_marker_witness :
    resolve ([⟨"a".data, [], "p1".data, [], [['x']]⟩].map
        (fun sp => if sp = ⟨"a".data, [], "p1".data, [], [['x']]⟩
          then ⟨"a".data, [], "p2".data, [], [['x']]⟩ else sp))
        ⟨"a".data, [], "p2".data, [], [['x']]⟩
      = resolve [⟨"a".data, [], "p1".data, [], [['x']]⟩]
          ⟨"a".data, [], "p1".data, [], [['x']]⟩ :=
  resolve_ignores_own_text_without_self_marker _ _ _ rfl rfl rfl (by decide)

theorem resolve_eq (all : List Subprompt) (root : Subprompt) :
    resolve all root
      = (⟨removeDuplicateTerms (resolveSubpromptRecursively all root ∅).1,
          removeDuplicateTerms (resolveSubpromptRecursively all root ∅).2.1⟩,
         (resolveSubpromptRecursively all root ∅).2.2) := rfl

theorem findNested_simple {n : Str} (all : List Subprompt)
    (h1 : ¬(splitColonSpace n).length > 1) (h2 : n.contains '/' = false) :
    findNested all n
      = all.find? (fun sp => decide (sp.name = n ∧ sp.folder_path = [])) := by
  unfold findNested
  rw [if_neg h1, if_neg (by rw [h2]; exact Bool.false_ne_true)]

/-- C1: for subprompts A and B in a mutual reference cycle (A's order is
`[self, ref B]`, B's order is `[self, ref A]`, arbitrary names and texts),
`resolve(A)` terminates with an explicitly computed result in which A's text
is merged once at the root, once around the cycle, and the revisit of B is
cut off; after deduplication every term (in particular each node's own
attached text) occurs at most once (case-insensitively), and exactly one
cycle warning is produced. -/
theorem resolve_mutual_cycle
    (nA nB pA qA pB qB : Str)
    (hAB : nA ≠ nB)
    (hAatt : ¬nA = attachedTok) (hBatt : ¬nB = attachedTok)
    (hAc : ¬(splitColonSpace nA).length > 1) (hAs : nA.contains '/' = false)
    (hBc : ¬(splitColonSpace nB).length > 1) (hBs : nB.contains '/' = false) :
    resolve [⟨nA, [], pA, qA, [attachedTok, nB]⟩, ⟨nB, [], pB, qB, [attachedTok, nA]⟩]
        ⟨nA, [], pA, qA, [attachedTok, nB]⟩
      = (⟨removeDuplicateTerms
            (addText (addText (addText pA []) (addText pB [])) (addText pA [])),
          removeDuplicateTerms
            (addText (addText (addText qA []) (addText qB [])) (addText qA []))⟩,
         [Warning.circular nB]) ∧
    ((termsOf (resolve
        [⟨nA, [], pA, qA, [attachedTok, nB]⟩, ⟨nB, [], pB, qB, [attachedTok, nA]⟩]
        ⟨nA, [], pA, qA, [attachedTok, nB]⟩).1.positive).map lowerStr).Nodup ∧
    ((termsOf (resolve
        [⟨nA, [], pA, qA, [attachedTok, nB]⟩, ⟨nB, [], pB, qB, [attachedTok, nA]⟩]
        ⟨nA, [], pA, qA, [attachedTok, nB]⟩).1.negative).map lowerStr).Nodup ∧
    Warning.circular nB ∈ (resolve
        [⟨nA, [], pA, qA, [attachedTok, nB]⟩, ⟨nB, [], pB, qB, [attachedTok, nA]⟩]
        ⟨nA, [], pA, qA, [attachedTok, nB]⟩).2 := by
  have hoA : (⟨nA, [], pA, qA, [attachedTok, nB]⟩ : Subprompt).order
      = [attachedTok, nB] := rfl
  have hoB : (⟨nB, [], pB, qB, [attachedTok, nA]⟩ : Subprompt).order
      = [attachedTok, nA] := rfl
  have hfB : findNested
      [⟨nA, [], pA, qA, [attachedTok, nB]⟩, ⟨nB, [], pB, qB, [attachedTok, nA]⟩] nB
      = some ⟨nB, [], pB, qB, [attachedTok, nA]⟩ := by
    rw [findNested_simple _ hBc hBs]
    rw [List.find?_cons_of_neg _ (by simp [hAB]), List.find?_cons_of_pos _ (by simp)]
  have hfA : findNested
      [⟨nA, [], pA, qA, [attachedTok, nB]⟩, ⟨nB, [], pB, qB, [attachedTok, nA]⟩] nA
      = some ⟨nA, [], pA, qA, [attachedTok, nB]⟩ := by
    rw [findNested_simple _ hAc hAs]
    rw [List.find?_cons_of_pos _ (by simp)]
  have h2 : resolveGo
      [⟨nA, [], pA, qA, [attachedTok, nB]⟩, ⟨nB, [], pB, qB, [attachedTok, nA]⟩]
      ⟨nA, [], pA, qA, [attachedTok, nB]⟩ [attachedTok, nB] 0
      (insert nA (insert nB ∅)) [] [] []
      = (addText pA [], addText qA [], [Warning.circular nB]) := by
    rw [resolveGo_attached _ _ _ _ _ _ _ _ rfl]
    rw [resolveGo_circular _ _ _ _ _ _ _ hBatt (by simp)]
    rw [resolveGo_nil]
    rfl
  have h3 : resolveGo
      [⟨nA, [], pA, qA, [attachedTok, nB]⟩, ⟨nB, [], pB, qB, [attachedTok, nA]⟩]
      ⟨nB, [], pB, qB, [attachedTok, nA]⟩ [attachedTok, nA] 0 (insert nB ∅) [] [] []
      = (addText (addText pA []) (addText pB []),
         addText (addText qA []) (addText qB []), [Warning.circular nB]) := by
    rw [resolveGo_attached _ _ _ _ _ _ _ _ rfl]
    rw [resolveGo_ref _ _ _ _ _ _ _ hAatt (by simp [hAB]) hfA]
    rw [hoA, h2, resolveGo_nil]
  have h4 : resolveSubpromptRecursively
      [⟨nA, [], pA, qA, [attachedTok, nB]⟩, ⟨nB, [], pB, qB, [attachedTok, nA]⟩]
      ⟨nA, [], pA, qA, [attachedTok, nB]⟩ ∅
      = (addText (addText (addText pA []) (addText pB [])) (addText pA []),
         addText (addText (addText qA []) (addText qB [])) (addText qA []),
         [Warning.circular nB]) := by
    unfold resolveSubpromptRecursively
    rw [hoA]
    rw [resolveGo_attached _ _ _ _ _ _ _ _ rfl]
    rw [resolveGo_ref _ _ _ _ _ _ _ hBatt (by simp) hfB]
    rw [hoB, h3, resolveGo_nil]
  have hfull : resolve
      [⟨nA, [], pA, qA, [attachedTok, nB]⟩, ⟨nB, [], pB, qB, [attachedTok, nA]⟩]
      ⟨nA, [], pA, qA, [attachedTok, nB]⟩
      = (⟨removeDuplicateTerms
            (addText (addText (addText pA []) (addText pB [])) (addText pA [])),
          removeDuplicateTerms
            (addText (addText (addText qA []) (addText qB [])) (addText qA []))⟩,
         [Warning.circular nB]) := by
    rw [resolve_eq, h4]
  refine ⟨hfull, ?_, ?_, ?_⟩
  · exact nodup_lower_termsOf_removeDuplicateTerms _
  · exact nodup_lower_termsOf_removeDuplicateTerms _
  · rw [hfull]
    simp

/-- Witness for C1 at concrete names and texts. -/
theorem resolve_mutual_cycle_witness :
    resolve [⟨"a".data, [], "x, y".data, [], [attachedTok, "b".data]⟩,
             ⟨"b".data, [], "y, z".data, [], [attachedTok, "a".data]⟩]
        ⟨"a".data, [], "x, y".data, [], [attachedTok, "b".data]⟩
      = (⟨removeDuplicateTerms
            (addText (addText (addText "x, y".data []) (addText "y, z".data []))
              (addText "x, y".data [])),
          removeDuplicateTerms
            (addText (addText (addText [] []) (addText [] [])) (addText [] []))⟩,
         [Warning.circular "b".data]) ∧
    Warning.circular "b".data ∈ (resolve
        [⟨"a".data, [], "x, y".data, [], [attachedTok, "b".data]⟩,
         ⟨"b".data, [], "y, z".data, [], [attachedTok, "a".data]⟩]
        ⟨"a".data, [], "x, y".data, [], [attachedTok, "b".data]⟩).2 := by
  have h := resolve_mutual_cycle "a".data "b".data "x, y".data [] "y, z".data []
    (by decide) (by decide) (by decide) (by decide) (by decide) (by decide) (by decide)
  exact ⟨h.1, h.2.2.2⟩

theorem addText_nil (x : Str) : addText x [] = jsTrim x := by
  unfold addText appendPiece
  by_cases h : jsTrim x = []
  · simp [h]
  · simp [h]

theorem jsTrim_addText_nil (x : Str) : jsTrim (addText x []) = addText x [] := by
  rw [addText_nil]
  exact jsTrim_idem x

theorem termsOf_addText_nil (x : Str) : termsOf (addText x []) = termsOf (jsTrim x) := by
  rw [addText_nil]

theorem countP_lower_le_one {L : List Str} (h : (L.map lowerStr).Nodup) (v : Str) :
    L.countP (fun y => decide (lowerStr y = v)) ≤ 1 := by
  induction L with
  | nil => simp
  | cons t rest ih =>
    rw [List.map_cons, List.nodup_cons] at h
    rw [List.countP_cons]
    by_cases ht : lowerStr t = v
    · have hzero : rest.countP (fun y => decide (lowerStr y = v)) = 0 := by
        rw [List.countP_eq_zero]
        intro y hy
        simp only [decide_eq_true_eq]
        intro habs
        exact h.1 (by rw [ht, ← habs]; exact List.mem_map.mpr ⟨y, hy, rfl⟩)
      simp [hzero, ht]
    · simpa [ht] using ih h.2

theorem count_lower_termsOf_rdt {s x : Str}
    (hx : ∃ y ∈ termsOf s, lowerStr y = lowerStr x) :
    (termsOf (removeDuplicateTerms s)).countP
      (fun y => decide (lowerStr y = lowerStr x)) = 1 := by
  have hnd := nodup_lower_termsOf_removeDuplicateTerms s
  have hle := countP_lower_le_one hnd (lowerStr x)
  have hpos : 0 < (termsOf (removeDuplicateTerms s)).countP
      (fun y => decide (lowerStr y = lowerStr x)) := by
    rw [List.countP_pos_iff]
    rcases lower_mem_termsOf_removeDuplicateTerms.mpr hx with ⟨y, hy, hyx⟩
    exact ⟨y, hy, by simp [hyx]⟩
  omega

/-- C3: diamond inclusion is not a cycle: with A referencing B and C, and
both B and C referencing D (orders `[self, …]`, arbitrary names and texts),
`resolve(A)` produces no warnings at all (in particular no cycle warning),
the raw merged accumulator contains D's trimmed text once per branch (two
independent recursions into D), and after deduplication every term of D's
text appears exactly once in the final positive/negative results. -/
theorem resolve_diamond
    (na nb nc nd pa qa pb qb pc qc pd qd : Str)
    (hab : na ≠ nb) (hac : na ≠ nc) (had : na ≠ nd)
    (hbc : nb ≠ nc) (hbd : nb ≠ nd) (hcd : nc ≠ nd)
    (hBatt : ¬nb = attachedTok) (hCatt : ¬nc = attachedTok)
    (hDatt : ¬nd = attachedTok)
    (hBc : ¬(splitColonSpace nb).length > 1) (hBs : nb.contains '/' = false)
    (hCc : ¬(splitColonSpace nc).length > 1) (hCs : nc.contains '/' = false)
    (hDc : ¬(splitColonSpace nd).length > 1) (hDs : nd.contains '/' = false) :
    resolve [⟨na, [], pa, qa, [attachedTok, nb, nc]⟩,
             ⟨nb, [], pb, qb, [attachedTok, nd]⟩,
             ⟨nc, [], pc, qc, [attachedTok, nd]⟩,
             ⟨nd, [], pd, qd, [attachedTok]⟩]
        ⟨na, [], pa, qa, [attachedTok, nb, nc]⟩
      = (⟨removeDuplicateTerms
            (addText (addText (addText pd []) (addText pc []))
              (addText (addText (addText pd []) (addText pb [])) (addText pa []))),
          removeDuplicateTerms
            (addText (addText (addText qd []) (addText qc []))
              (addText (addText (addText qd []) (addText qb [])) (addText qa [])))⟩,
         []) ∧
    termsOf (addText (addText (addText pd []) (addText pc []))
        (addText (addText (addText pd []) (addText pb [])) (addText pa [])))
      = (termsOf (jsTrim pa) ++ (termsOf (jsTrim pb) ++ termsOf (jsTrim pd)))
          ++ (termsOf (jsTrim pc) ++ termsOf (jsTrim pd)) ∧
    (∀ x ∈ termsOf (jsTrim pd),
      (termsOf (resolve [⟨na, [], pa, qa, [attachedTok, nb, nc]⟩,
             ⟨nb, [], pb, qb, [attachedTok, nd]⟩,
             ⟨nc, [], pc, qc, [attachedTok, nd]⟩,
             ⟨nd, [], pd, qd, [attachedTok]⟩]
          ⟨na, [], pa, qa, [attachedTok, nb, nc]⟩).1.positive).countP
        (fun y => decide (lowerStr y = lowerStr x)) = 1) ∧
    (∀ x ∈ termsOf (jsTrim qd),
      (termsOf (resolve [⟨na, [], pa, qa, [attachedTok, nb, nc]⟩,
             ⟨nb, [], pb, qb, [attachedTok, nd]⟩,
             ⟨nc, [], pc, qc, [attachedTok, nd]⟩,
             ⟨nd, [], pd, qd, [attachedTok]⟩]
          ⟨na, [], pa, qa, [attachedTok, nb, nc]⟩).1.negative).countP
        (fun y => decide (lowerStr y = lowerStr x)) = 1) := by
  have hoA : (⟨na, [], pa, qa, [attachedTok, nb, nc]⟩ : Subprompt).order
      = [attachedTok, nb, nc] := rfl
  have hoB : (⟨nb, [], pb, qb, [attachedTok, nd]⟩ : Subprompt).order
      = [attachedTok, nd] := rfl
  have hoC : (⟨nc, [], pc, qc, [attachedTok, nd]⟩ : Subprompt).order
      = [attachedTok, nd] := rfl
  have hoD : (⟨nd, [], pd, qd, [attachedTok]⟩ : Subprompt).order = [attachedTok] := rfl
  have hfB : findNested [⟨na, [], pa, qa, [attachedTok, nb, nc]⟩,
      ⟨nb, [], pb, qb, [attachedTok, nd]⟩, ⟨nc, [], pc, qc, [attachedTok, nd]⟩,
      ⟨nd, [], pd, qd, [attachedTok]⟩] nb = some ⟨nb, [], pb, qb, [attachedTok, nd]⟩ := by
    rw [findNested_simple _ hBc hBs]
    rw [List.find?_cons_of_neg _ (by simp [hab]), List.find?_cons_of_pos _ (by simp)]
  have hfC : findNested [⟨na, [], pa, qa, [attachedTok, nb, nc]⟩,
      ⟨nb, [], pb, qb, [attachedTok, nd]⟩, ⟨nc, [], pc, qc, [attachedTok, nd]⟩,
      ⟨nd, [], pd, qd, [attachedTok]⟩] nc = some ⟨nc, [], pc, qc, [attachedTok, nd]⟩ := by
    rw [findNested_simple _ hCc hCs]
    rw [List.find?_cons_of_neg _ (by simp [hac]), List.find?_cons_of_neg _ (by simp [hbc]),
      List.find?_cons_of_pos _ (by simp)]
  have hfD : findNested [⟨na, [], pa, qa, [attachedTok, nb, nc]⟩,
      ⟨nb, [], pb, qb, [attachedTok, nd]⟩, ⟨nc, [], pc, qc, [attachedTok, nd]⟩,
      ⟨nd, [], pd, qd, [attachedTok]⟩] nd = some ⟨nd, [], pd, qd, [attachedTok]⟩ := by
    rw [findNested_simple _ hDc hDs]
    rw [List.find?_cons_of_neg _ (by simp [had]), List.find?_cons_of_neg _ (by simp [hbd]),
      List.find?_cons_of_neg _ (by simp [hcd]), List.find?_cons_of_pos _ (by simp)]
  have hD : ∀ (v : Finset Str) (w : List Warning),
      resolveGo [⟨na, [], pa, qa, [attachedTok, nb, nc]⟩,
        ⟨nb, [], pb, qb, [attachedTok, nd]⟩, ⟨nc, [], pc, qc, [attachedTok, nd]⟩,
        ⟨nd, [], pd, qd, [attachedTok]⟩] ⟨nd, [], pd, qd, [attachedTok]⟩
        [attachedTok] 0 v [] [] w
        = (addText pd [], addText qd [], w) := by
    intro v w
    rw [resolveGo_attached _ _ _ _ _ _ _ _ rfl, resolveGo_nil]
  have hB : resolveGo [⟨na, [], pa, qa, [attachedTok, nb, nc]⟩,
      ⟨nb, [], pb, qb, [attachedTok, nd]⟩, ⟨nc, [], pc, qc, [attachedTok, nd]⟩,
      ⟨nd, [], pd, qd, [attachedTok]⟩] ⟨nb, [], pb, qb, [attachedTok, nd]⟩
      [attachedTok, nd] 0 (insert nb ∅) [] [] []
      = (addText (addText pd []) (addText pb []),
         addText (addText qd []) (addText qb []), []) := by
    rw [resolveGo_attached _ _ _ _ _ _ _ _ rfl]
    rw [resolveGo_ref _ _ _ _ _ _ _ hDatt (by simp [hbd.symm]) hfD]
    rw [hoD, hD _ _, resolveGo_nil]
  have hC : resolveGo [⟨na, [], pa, qa, [attachedTok, nb, nc]⟩,
      ⟨nb, [], pb, qb, [attachedTok, nd]⟩, ⟨nc, [], pc, qc, [attachedTok, nd]⟩,
      ⟨nd, [], pd, qd, [attachedTok]⟩] ⟨nc, [], pc, qc, [attachedTok, nd]⟩
      [attachedTok, nd] 0 (insert nc ∅) [] [] []
      = (addText (addText pd []) (addText pc []),
         addText (addText qd []) (addText qc []), []) := by
    rw [resolveGo_attached _ _ _ _ _ _ _ _ rfl]
    rw [resolveGo_ref _ _ _ _ _ _ _ hDatt (by simp [hcd.symm]) hfD]
    rw [hoD, hD _ _, resolveGo_nil]
  have h4 : resolveSubpromptRecursively [⟨na, [], pa, qa, [attachedTok, nb, nc]⟩,
      ⟨nb, [], pb, qb, [attachedTok, nd]⟩, ⟨nc, [], pc, qc, [attachedTok, nd]⟩,
      ⟨nd, [], pd, qd, [attachedTok]⟩] ⟨na, [], pa, qa, [attachedTok, nb, nc]⟩ ∅
      = (addText (addText (addText pd []) (addText pc []))
           (addText (addText (addText pd []) (addText pb [])) (addText pa [])),
         addText (addText (addText qd []) (addText qc []))
           (addText (addText (addText qd []) (addText qb [])) (addText qa [])),
         []) := by
    unfold resolveSubpromptRecursively
    rw [hoA]
    rw [resolveGo_attached _ _ _ _ _ _ _ _ rfl]
    rw [resolveGo_ref _ _ _ _ _ _ _ hBatt (by simp) hfB]
    rw [hoB, hB]
    rw [resolveGo_ref _ _ _ _ _ _ _ hCatt (by simp) hfC]
    rw [hoC, hC]
    rw [resolveGo_nil]
  have hfull : resolve [⟨na, [], pa, qa, [attachedTok, nb, nc]⟩,
      ⟨nb, [], pb, qb, [attachedTok, nd]⟩, ⟨nc, [], pc, qc, [attachedTok, nd]⟩,
      ⟨nd, [], pd, qd, [attachedTok]⟩] ⟨na, [], pa, qa, [attachedTok, nb, nc]⟩
      = (⟨removeDuplicateTerms
            (addText (addText (addText pd []) (addText pc []))
              (addText (addText (addText pd []) (addText pb [])) (addText pa []))),
          removeDuplicateTerms
            (addText (addText (addText qd []) (addText qc []))
              (addText (addText (addText qd []) (addText qb [])) (addText qa [])))⟩,
         []) := by
    rw [resolve_eq, h4]
  have hRBp : termsOf (addText (addText pd []) (addText pb []))
      = termsOf (jsTrim pb) ++ termsOf (jsTrim pd) := by
    rw [termsOf_addText, termsOf_addText_nil, jsTrim_addText_nil, termsOf_addText_nil]
  have hRCp : termsOf (addText (addText pd []) (addText pc []))
      = termsOf (jsTrim pc) ++ termsOf (jsTrim pd) := by
    rw [termsOf_addText, termsOf_addText_nil, jsTrim_addText_nil, termsOf_addText_nil]
  have hacc2 : termsOf (addText (addText (addText pd []) (addText pb [])) (addText pa []))
      = termsOf (jsTrim pa) ++ (termsOf (jsTrim pb) ++ termsOf (jsTrim pd)) := by
    rw [termsOf_addText, termsOf_addText_nil, jsTrim_addText (jsTrim_addText_nil pb), hRBp]
  have htermsP : termsOf (addText (addText (addText pd []) (addText pc []))
        (addText (addText (addText pd []) (addText pb [])) (addText pa [])))
      = (termsOf (jsTrim pa) ++ (termsOf (jsTrim pb) ++ termsOf (jsTrim pd)))
          ++ (termsOf (jsTrim pc) ++ termsOf (jsTrim pd)) := by
    rw [termsOf_addText, hacc2, jsTrim_addText (jsTrim_addText_nil pc), hRCp]
  have hRBn : termsOf (addText (addText qd []) (addText qb []))
      = termsOf (jsTrim qb) ++ termsOf (jsTrim qd) := by
    rw [termsOf_addText, termsOf_addText_nil, jsTrim_addText_nil, termsOf_addText_nil]
  have hRCn : termsOf (addText (addText qd []) (addText qc []))
      = termsOf (jsTrim qc) ++ termsOf (jsTrim qd) := by
    rw [termsOf_addText, termsOf_addText_nil, jsTrim_addText_nil, termsOf_addText_nil]
  have hacc2n : termsOf (addText (addText (addText qd []) (addText qb [])) (addText qa []))
      = termsOf (jsTrim qa) ++ (termsOf (jsTrim qb) ++ termsOf (jsTrim qd)) := by
    rw [termsOf_addText, termsOf_addText_nil, jsTrim_addText (jsTrim_addText_nil qb), hRBn]
  have htermsN : termsOf (addText (addText (addText qd []) (addText qc []))
        (addText (addText (addText qd []) (addText qb [])) (addText qa [])))
      = (termsOf (jsTrim qa) ++ (termsOf (jsTrim qb) ++ termsOf (jsTrim qd)))
          ++ (termsOf (jsTrim qc) ++ termsOf (jsTrim qd)) := by
    rw [termsOf_addText, hacc2n, jsTrim_addText (jsTrim_addText_nil qc), hRCn]
  refine ⟨hfull, htermsP, ?_, ?_⟩
  · intro x hx
    have hmem : x ∈ termsOf (addText (addText (addText pd []) (addText pc []))
        (addText (addText (addText pd []) (addText pb [])) (addText pa []))) := by
      rw [htermsP]
      exact List.mem_append_right _ (List.mem_append_right _ hx)
    have hcount := count_lower_termsOf_rdt ⟨x, hmem, rfl⟩
    have hproj : (resolve [⟨na, [], pa, qa, [attachedTok, nb, nc]⟩,
        ⟨nb, [], pb, qb, [attachedTok, nd]⟩, ⟨nc, [], pc, qc, [attachedTok, nd]⟩,
        ⟨nd, [], pd, qd, [attachedTok]⟩] ⟨na, [], pa, qa, [attachedTok, nb, nc]⟩).1.positive
        = removeDuplicateTerms (addText (addText (addText pd []) (addText pc []))
            (addText (addText (addText pd []) (addText pb [])) (addText pa []))) := by
      rw [hfull]
    rw [hproj]
    exact hcount
  · intro x hx
    have hmem : x ∈ termsOf (addText (addText (addText qd []) (addText qc []))
        (addText (addText (addText qd []) (addText qb [])) (addText qa []))) := by
      rw [htermsN]
      exact List.mem_append_right _ (List.mem_append_right _ hx)
    have hcount := count_lower_termsOf_rdt ⟨x, hmem, rfl⟩
    have hproj : (resolve [⟨na, [], pa, qa, [attachedTok, nb, nc]⟩,
        ⟨nb, [], pb, qb, [attachedTok, nd]⟩, ⟨nc, [], pc, qc, [attachedTok, nd]⟩,
        ⟨nd, [], pd, qd, [attachedTok]⟩] ⟨na, [], pa, qa, [attachedTok, nb, nc]⟩).1.negative
        = removeDuplicateTerms (addText (addText (addText qd []) (addText qc []))
            (addText (addText (addText qd []) (addText qb [])) (addText qa []))) := by
      rw [hfull]
    rw [hproj]
    exact hcount

/-- Witness for C3 at concrete names and texts: D's term appears exactly once. -/
theorem resolve_diamond_witness :
    (termsOf (resolve [⟨"a".data, [], "x".data, [], [attachedTok, "b".data, "c".data]⟩,
        ⟨"b".data, [], "y".data, [], [attachedTok, "d".data]⟩,
        ⟨"c".data, [], "z".data, [], [attachedTok, "d".data]⟩,
        ⟨"d".data, [], "wet nose".data, [], [attachedTok]⟩]
        ⟨"a".data, [], "x".data, [], [attachedTok, "b".data, "c".data]⟩).1.positive).countP
      (fun y => decide (lowerStr y = lowerStr "wet nose".data)) = 1 := by
  exact (resolve_diamond "a".data "b".data "c".data "d".data "x".data [] "y".data []
    "z".data [] "wet nose".data [] (by decide) (by decide) (by decide) (by decide)
    (by decide) (by decide) (by decide) (by decide) (by decide) (by decide) (by decide)
    (by decide) (by decide) (by decide) (by decide)).2.2.1 "wet nose".data (by decide)

/-- C6: order sensitivity: for fixed texts of A (own text via the self-marker)
and a referenced B, placing B's reference before versus after the
self-marker in A's order changes how the result is assembled (B-then-A
versus A-then-B, shown by the two explicit result equations) but not the
case-insensitive set of terms of the result. -/
theorem resolve_order_sensitivity
    (nA nB pA qA pB qB : Str)
    (hAB : nA ≠ nB) (hBatt : ¬nB = attachedTok)
    (hBc : ¬(splitColonSpace nB).length > 1) (hBs : nB.contains '/' = false) :
    resolve [⟨nA, [], pA, qA, [nB, attachedTok]⟩, ⟨nB, [], pB, qB, [attachedTok]⟩]
        ⟨nA, [], pA, qA, [nB, attachedTok]⟩
      = (⟨removeDuplicateTerms (addText pA (addText (addText pB []) [])),
          removeDuplicateTerms (addText qA (addText (addText qB []) []))⟩, []) ∧
    resolve [⟨nA, [], pA, qA, [attachedTok, nB]⟩, ⟨nB, [], pB, qB, [attachedTok]⟩]
        ⟨nA, [], pA, qA, [attachedTok, nB]⟩
      = (⟨removeDuplicateTerms (addText (addText pB []) (addText pA [])),
          removeDuplicateTerms (addText (addText qB []) (addText qA []))⟩, []) ∧
    (∀ v : Str,
      (∃ y ∈ termsOf (resolve
          [⟨nA, [], pA, qA, [nB, attachedTok]⟩, ⟨nB, [], pB, qB, [attachedTok]⟩]
          ⟨nA, [], pA, qA, [nB, attachedTok]⟩).1.positive, lowerStr y = v) ↔
      (∃ y ∈ termsOf (resolve
          [⟨nA, [], pA, qA, [attachedTok, nB]⟩, ⟨nB, [], pB, qB, [attachedTok]⟩]
          ⟨nA, [], pA, qA, [attachedTok, nB]⟩).1.positive, lowerStr y = v)) ∧
    (∀ v : Str,
      (∃ y ∈ termsOf (resolve
          [⟨nA, [], pA, qA, [nB, attachedTok]⟩, ⟨nB, [], pB, qB, [attachedTok]⟩]
          ⟨nA, [], pA, qA, [nB, attachedTok]⟩).1.negative, lowerStr y = v) ↔
      (∃ y ∈ termsOf (resolve
          [⟨nA, [], pA, qA, [attachedTok, nB]⟩, ⟨nB, [], pB, qB, [attachedTok]⟩]
          ⟨nA, [], pA, qA, [attachedTok, nB]⟩).1.negative, lowerStr y = v)) := by
  have hoB : (⟨nB, [], pB, qB, [attachedTok]⟩ : Subprompt).order = [attachedTok] := rfl
  have hfB1 : findNested [⟨nA, [], pA, qA, [nB, attachedTok]⟩,
      ⟨nB, [], pB, qB, [attachedTok]⟩] nB = some ⟨nB, [], pB, qB, [attachedTok]⟩ := by
    rw [findNested_simple _ hBc hBs]
    rw [List.find?_cons_of_neg _ (by simp [hAB]), List.find?_cons_of_pos _ (by simp)]
  have hfB2 : findNested [⟨nA, [], pA, qA, [attachedTok, nB]⟩,
      ⟨nB, [], pB, qB, [attachedTok]⟩] nB = some ⟨nB, [], pB, qB, [attachedTok]⟩ := by
    rw [findNested_simple _ hBc hBs]
    rw [List.find?_cons_of_neg _ (by simp [hAB]), List.find?_cons_of_pos _ (by simp)]
  have hBcall1 : resolveGo [⟨nA, [], pA, qA, [nB, attachedTok]⟩,
      ⟨nB, [], pB, qB, [attachedTok]⟩] ⟨nB, [], pB, qB, [attachedTok]⟩
      [attachedTok] 0 (insert nB ∅) [] [] []
      = (addText pB [], addText qB [], []) := by
    rw [resolveGo_attached _ _ _ _ _ _ _ _ rfl, resolveGo_nil]
  have hBcall2 : resolveGo [⟨nA, [], pA, qA, [attachedTok, nB]⟩,
      ⟨nB, [], pB, qB, [attachedTok]⟩] ⟨nB, [], pB, qB, [attachedTok]⟩
      [attachedTok] 0 (insert nB ∅) [] [] []
      = (addText pB [], addText qB [], []) := by
    rw [resolveGo_attached _ _ _ _ _ _ _ _ rfl, resolveGo_nil]
  have hfull1 : resolve [⟨nA, [], pA, qA, [nB, attachedTok]⟩,
      ⟨nB, [], pB, qB, [attachedTok]⟩] ⟨nA, [], pA, qA, [nB, attachedTok]⟩
      = (⟨removeDuplicateTerms (addText pA (addText (addText pB []) [])),
          removeDuplicateTerms (addText qA (addText (addText qB []) []))⟩, []) := by
    rw [resolve_eq]
    unfold resolveSubpromptRecursively
    rw [show (⟨nA, [], pA, qA, [nB, attachedTok]⟩ : Subprompt).order
        = [nB, attachedTok] from rfl]
    rw [resolveGo_ref _ _ _ _ _ _ _ hBatt (by simp) hfB1]
    rw [hoB, hBcall1]
    rw [resolveGo_attached _ _ _ _ _ _ _ _ rfl]
    rw [resolveGo_nil]
  have hfull2 : resolve [⟨nA, [], pA, qA, [attachedTok, nB]⟩,
      ⟨nB, [], pB, qB, [attachedTok]⟩] ⟨nA, [], pA, qA, [attachedTok, nB]⟩
      = (⟨removeDuplicateTerms (addText (addText pB []) (addText pA [])),
          removeDuplicateTerms (addText (addText qB []) (addText qA []))⟩, []) := by
    rw [resolve_eq]
    unfold resolveSubpromptRecursively
    rw [show (⟨nA, [], pA, qA, [attachedTok, nB]⟩ : Subprompt).order
        = [attachedTok, nB] from rfl]
    rw [resolveGo_attached _ _ _ _ _ _ _ _ rfl]
    rw [resolveGo_ref _ _ _ _ _ _ _ hBatt (by simp) hfB2]
    rw [hoB, hBcall2]
    rw [resolveGo_nil]
  have hterms1 : termsOf (addText pA (addText (addText pB []) []))
      = termsOf (jsTrim pB) ++ termsOf (jsTrim pA) := by
    rw [termsOf_addText, termsOf_addText_nil, jsTrim_addText_nil, termsOf_addText_nil]
  have hterms2 : termsOf (addText (addText pB []) (addText pA []))
      = termsOf (jsTrim pA) ++ termsOf (jsTrim pB) := by
    rw [termsOf_addText, termsOf_addText_nil, jsTrim_addText_nil, termsOf_addText_nil]
  have hterms1n : termsOf (addText qA (addText (addText qB []) []))
      = termsOf (jsTrim qB) ++ termsOf (jsTrim qA) := by
    rw [termsOf_addText, termsOf_addText_nil, jsTrim_addText_nil, termsOf_addText_nil]
  have hterms2n : termsOf (addText (addText qB []) (addText qA []))
      = termsOf (jsTrim qA) ++ termsOf (jsTrim qB) := by
    rw [termsOf_addText, termsOf_addText_nil, jsTrim_addText_nil, termsOf_addText_nil]
  refine ⟨hfull1, hfull2, ?_, ?_⟩
  · intro v
    have hp1 : (resolve [⟨nA, [], pA, qA, [nB, attachedTok]⟩,
        ⟨nB, [], pB, qB, [attachedTok]⟩] ⟨nA, [], pA, qA, [nB, attachedTok]⟩).1.positive
        = removeDuplicateTerms (addText pA (addText (addText pB []) [])) := by
      rw [hfull1]
    have hp2 : (resolve [⟨nA, [], pA, qA, [attachedTok, nB]⟩,
        ⟨nB, [], pB, qB, [attachedTok]⟩] ⟨nA, [], pA, qA, [attachedTok, nB]⟩).1.positive
        = removeDuplicateTerms (addText (addText pB []) (addText pA [])) := by
      rw [hfull2]
    rw [hp1, hp2, lower_mem_termsOf_removeDuplicateTerms,
      lower_mem_termsOf_removeDuplicateTerms, hterms1, hterms2]
    constructor
    · rintro ⟨y, hy, hv⟩
      rcases List.mem_append.mp hy with h | h
      · exact ⟨y, List.mem_append_right _ h, hv⟩
      · exact ⟨y, List.mem_append_left _ h, hv⟩
    · rintro ⟨y, hy, hv⟩
      rcases List.mem_append.mp hy with h | h
      · exact ⟨y, List.mem_append_right _ h, hv⟩
      · exact ⟨y, List.mem_append_left _ h, hv⟩
  · intro v
    have hp1 : (resolve [⟨nA, [], pA, qA, [nB, attachedTok]⟩,
        ⟨nB, [], pB, qB, [attachedTok]⟩] ⟨nA, [], pA, qA, [nB, attachedTok]⟩).1.negative
        = removeDuplicateTerms (addText qA (addText (addText qB []) [])) := by
      rw [hfull1]
    have hp2 : (resolve [⟨nA, [], pA, qA, [attachedTok, nB]⟩,
        ⟨nB, [], pB, qB, [attachedTok]⟩] ⟨nA, [], pA, qA, [attachedTok, nB]⟩).1.negative
        = removeDuplicateTerms (addText (addText qB []) (addText qA [])) := by
      rw [hfull2]
    rw [hp1, hp2, lower_mem_termsOf_removeDuplicateTerms,
      lower_mem_termsOf_removeDuplicateTerms, hterms1n, hterms2n]
    constructor
    · rintro ⟨y, hy, hv⟩
      rcases List.mem_append.mp hy with h | h
      · exact ⟨y, List.mem_append_right _ h, hv⟩
      · exact ⟨y, List.mem_append_left _ h, hv⟩
    · rintro ⟨y, hy, hv⟩
      rcases List.mem_append.mp hy with h | h
      · exact ⟨y, List.mem_append_right _ h, hv⟩
      · exact ⟨y, List.mem_append_left _ h, hv⟩

/-- Witness for C6: with A's text `"x"` and B's text `"y"`, the two orders
produce `"y, x"` versus `"x, y"` — different strings, same term set. -/
theorem resolve_order_sensitivity_witness :
    (resolve [⟨"a".data, [], "x".data, [], ["b".data, attachedTok]⟩,
        ⟨"b".data, [], "y".data, [], [attachedTok]⟩]
        ⟨"a".data, [], "x".data, [], ["b".data, attachedTok]⟩).1.positive
      = "y, x".data ∧
    (resolve [⟨"a".data, [], "x".data, [], [attachedTok, "b".data]⟩,
        ⟨"b".data, [], "y".data, [], [attachedTok]⟩]
        ⟨"a".data, [], "x".data, [], [attachedTok, "b".data]⟩).1.positive
      = "x, y".data ∧
    "y, x".data ≠ "x, y".data := by
  have h := resolve_order_sensitivity "a".data "b".data "x".data [] "y".data []
    (by decide) (by decide) (by decide) (by decide)
  refine ⟨?_, ?_, by decide⟩
  · rw [h.1]
    decide
  · rw [h.2.1]
    decide

theorem buildPathLoop_none (lookup : List Folder) (visited : Finset Str)
    (parts : List Str) : buildPathLoop lookup none visited parts = parts := by
  rw [buildPathLoop]

theorem buildPathLoop_mem (lookup : List Folder) {c : Folder} {visited : Finset Str}
    (parts : List Str) (h : c.id ∈ visited) :
    buildPathLoop lookup (some c) visited parts = parts := by
  rw [buildPathLoop]
  simp [h]

theorem buildPathLoop_go (lookup : List Folder) {c : Folder} {visited : Finset Str}
    (parts : List Str) {p : Str} (h : c.id ∉ visited) (hp : c.parent_id = some p)
    (hp0 : p ≠ []) :
    buildPathLoop lookup (some c) visited parts
      = buildPathLoop lookup (lookupFolder lookup p) (insert c.id visited)
          (c.name :: parts) := by
  rw [buildPathLoop]
  simp [h, hp, hp0]

theorem buildPathLoop_stop (lookup : List Folder) {c : Folder} {visited : Finset Str}
    (parts : List Str) (h : c.id ∉ visited)
    (hp : c.parent_id = none ∨ c.parent_id = some []) :
    buildPathLoop lookup (some c) visited parts = c.name :: parts := by
  rw [buildPathLoop]
  rcases hp with hp | hp <;> simp [h, hp]

theorem mem_folderIds {m : List Folder} {f : Folder} (h : f ∈ m) :
    f.id ∈ folderIds m := by
  induction m with
  | nil => cases h
  | cons a as ih =>
    rcases List.mem_cons.mp h with h1 | h1
    · subst h1
      simp [folderIds]
    · simp only [folderIds, List.foldr_cons, Finset.mem_insert]
      exact Or.inr (ih h1)

theorem optIds_lookup_subset (lookup : List Folder) (p : Str) :
    optIds (lookupFolder lookup p) ⊆ folderIds lookup := by
  cases hl : lookupFolder lookup p with
  | none => simp [optIds]
  | some f =>
    intro x hx
    simp only [optIds, Finset.mem_singleton] at hx
    subst hx
    exact mem_folderIds (List.mem_of_find?_eq_some hl)

theorem buildPath_card_lt (lookup : List Folder) {c : Folder} {visited : Finset Str}
    (h : c.id ∉ visited) (p : Str) :
    ((folderIds lookup ∪ optIds (lookupFolder lookup p)) \ insert c.id visited).card
      < ((folderIds lookup ∪ optIds (some c)) \ visited).card := by
  have hUV : folderIds lookup ∪ optIds (lookupFolder lookup p)
      ⊆ folderIds lookup ∪ optIds (some c) :=
    Finset.union_subset Finset.subset_union_left
      ((optIds_lookup_subset lookup p).trans Finset.subset_union_left)
  have hsd : (folderIds lookup ∪ optIds (lookupFolder lookup p)) \ insert c.id visited
      ⊆ (folderIds lookup ∪ optIds (some c)) \ visited := by
    intro x hx
    simp only [Finset.mem_sdiff, Finset.mem_insert, not_or] at hx
    exact Finset.mem_sdiff.mpr ⟨hUV hx.1, hx.2.2⟩
  refine Finset.card_lt_card ((Finset.ssubset_iff_of_subset hsd).mpr ⟨c.id, ?_, ?_⟩)
  · refine Finset.mem_sdiff.mpr ⟨?_, h⟩
    simp [optIds]
  · simp

/-- C9: the folder-path computations terminate on every folder collection,
cyclic `parent_id` chains included: `buildPathFromFolder`'s visited-set walk
visits each folder id at most once (its output length is bounded by the
number of unvisited ids), `calculateFolderPath`'s walk is capped by its
depth counter, the collected names are joined with the `'/'` separator, and
on a concrete two-folder cycle both walks stop with a finite path. -/
theorem folder_path_walks_bounded :
    (∀ (lookup : List Folder) (cur : Option Folder) (visited : Finset Str)
        (parts : List Str),
      (buildPathLoop lookup cur visited parts).length
        ≤ ((folderIds lookup ∪ optIds cur) \ visited).card + parts.length) ∧
    (∀ (m : List Folder) (cur : Option Folder) (fuel : Nat) (parts : List Str),
      (calcPathLoop m cur fuel parts).length ≤ fuel + parts.length) ∧
    (∀ (lookup : List Folder) (f : Folder),
      buildPathFromFolder lookup f = f.name ∨
        buildPathFromFolder lookup f
          = joinStr ['/'] (buildPathLoop lookup (some f) ∅ [])) ∧
    buildPathFromFolder
        [⟨"a".data, "A".data, some "b".data⟩, ⟨"b".data, "B".data, some "a".data⟩]
        ⟨"a".data, "A".data, some "b".data⟩
      = "B/A".data ∧
    calculateFolderPath
        [⟨"a".data, "A".data, some "b".data⟩, ⟨"b".data, "B".data, some "a".data⟩]
        "a".data
      = "B/A/B/A/B/A/B/A/B/A/B/A/B/A/B/A/B/A/B/A".data := by
  refine ⟨?_, ?_, ?_, ?_, by decide⟩
  · intro lookup cur visited parts
    induction cur, visited, parts using buildPathLoop.induct lookup with
    | case1 x parts =>
      rw [buildPathLoop_none]
      omega
    | case2 c visited parts h =>
      rw [buildPathLoop_mem lookup parts h]
      omega
    | case3 c visited parts h hp =>
      rw [buildPathLoop_stop lookup parts h (Or.inr hp)]
      have hmem : c.id ∈ (folderIds lookup ∪ optIds (some c)) \ visited := by
        refine Finset.mem_sdiff.mpr ⟨?_, h⟩
        simp [optIds]
      have := Finset.card_pos.mpr ⟨c.id, hmem⟩
      simp only [List.length_cons]
      omega
    | case4 c visited parts h p hp hp0 ih =>
      rw [buildPathLoop_go lookup parts h hp hp0]
      have hlt := buildPath_card_lt lookup h p
      simp only [List.length_cons] at ih ⊢
      omega
    | case5 c visited parts h hp =>
      rw [buildPathLoop_stop lookup parts h (Or.inl hp)]
      have hmem : c.id ∈ (folderIds lookup ∪ optIds (some c)) \ visited := by
        refine Finset.mem_sdiff.mpr ⟨?_, h⟩
        simp [optIds]
      have := Finset.card_pos.mpr ⟨c.id, hmem⟩
      simp only [List.length_cons]
      omega
  · intro m cur fuel parts
    induction fuel generalizing cur parts with
    | zero =>
      cases cur <;> simp [calcPathLoop]
    | succ n ih =>
      cases cur with
      | none => simp [calcPathLoop]
      | some c =>
        rw [calcPathLoop]
        have := ih (match c.parent_id with
          | some p => if p = [] then none else lookupFolder m p
          | none => none) (c.name :: parts)
        simp only [List.length_cons] at this
        omega
  · intro lookup f
    unfold buildPathFromFolder
    cases hp : f.parent_id with
    | none => exact Or.inl rfl
    | some p =>
      by_cases h0 : p = []
      · subst h0
        exact Or.inl rfl
      · refine Or.inr ?_
        show (if p = [] then f.name
          else joinStr ['/'] (buildPathLoop lookup (some f) ∅ []))
            = joinStr ['/'] (buildPathLoop lookup (some f) ∅ [])
        rw [if_neg h0]
  · show joinStr ['/']
        (buildPathLoop
          [⟨"a".data, "A".data, some "b".data⟩, ⟨"b".data, "B".data, some "a".data⟩]
          (some ⟨"a".data, "A".data, some "b".data⟩) ∅ [])
      = "B/A".data
    rw [buildPathLoop_go _ _ (by decide) rfl (by decide)]
    rw [show lookupFolder
        [⟨"a".data, "A".data, some "b".data⟩, ⟨"b".data, "B".data, some "a".data⟩]
        "b".data = some ⟨"b".data, "B".data, some "a".data⟩ from by decide]
    rw [buildPathLoop_go _ _ (by decide) rfl (by decide)]
    rw [show lookupFolder
        [⟨"a".data, "A".data, some "b".data⟩, ⟨"b".data, "B".data, some "a".data⟩]
        "a".data = some ⟨"a".data, "A".data, some "b".data⟩ from by decide]
    rw [buildPathLoop_mem _ _ (by decide)]
    decide

/-- C4 counterexample: on the concrete two-folder collection where `f2` is a
child (hence descendant) of `f1`, the spec's `validateReparent(f1, f2)`
must fail, but the drop handler — the code's only pre-move check — does not
reject the drop: it proceeds to `moveItem` with target `f2`. -/
theorem handleDrop_no_descendant_check_cex :
    specValidateReparent
        [⟨"f1".data, "F1".data, none⟩, ⟨"f2".data, "F2".data, some "f1".data⟩]
        "f1".data "f2".data = false ∧
    handleDrop ⟨ItemType.folder, "f1".data, none, none⟩
        ⟨ItemType.folder, "f2".data, some "f1".data, some "f1".data⟩
      = some (⟨ItemType.folder, "f1".data, none, none⟩, "f2".data) := by
  constructor <;> decide

/-- C4 (amended): the drop validation performs no descendant check: for a
folder dropped onto a folder it rejects exactly when the two ids are equal,
and proceeds for every other target including descendants; moreover the
subsequent `moveItem` applies no mutation for folder sources (its body only
handles subprompts), so no folder reparent is ever applied via
drag-and-drop. -/
theorem handleDrop_folder_drop_characterization (source target : TreeItem)
    (hs : source.itemType = ItemType.folder)
    (ht : target.itemType = ItemType.folder) :
    (handleDrop source target = none ↔ source.id = target.id) ∧
    dropMutation source target = none := by
  by_cases hid : source.id = target.id
  · have h1 : handleDrop source target = none := by
      unfold handleDrop
      rw [if_neg (by simp [hs]), if_pos ⟨hs, ht, hid⟩]
    refine ⟨by rw [h1]; simp [hid], ?_⟩
    unfold dropMutation
    rw [h1]
  · have h1 : handleDrop source target = some (source, targetFolderIdOf target) := by
      unfold handleDrop
      rw [if_neg (by simp [hs]), if_neg (by simp [hid]), if_neg (by simp [hs])]
    refine ⟨by rw [h1]; simp [hid], ?_⟩
    unfold dropMutation
    rw [h1]
    simp [hs]

/-- Witness for the amended C4 at concrete folder items. -/
theorem handleDrop_folder_drop_characterization_witness :
    (handleDrop ⟨ItemType.folder, "f1".data, none, none⟩
        ⟨ItemType.folder, "f2".data, some "f1".data, some "f1".data⟩ = none
      ↔ "f1".data = "f2".data) ∧
    dropMutation ⟨ItemType.folder, "f1".data, none, none⟩
        ⟨ItemType.folder, "f2".data, some "f1".data, some "f1".data⟩ = none :=
  handleDrop_folder_drop_characterization _ _ rfl rfl

theorem mem_allFoldersWithRoot {foldersData : List Folder} {f : Folder}
    (h : f ∈ foldersData) : f ∈ allFoldersWithRoot foldersData := by
  unfold allFoldersWithRoot
  split
  · exact h
  · exact List.mem_append_left _ h

/-- C8 counterexample: a subprompt whose declared parent (`folder_id`) does
not exist in the snapshot is not always attached under the root sentinel:
with a dangling `folder_id = "ghost"` but a legacy `folder_path = "X"`
matching the existing folder named X, `organizeTreeData` attaches the
subprompt under that path-matched folder, not under the root sentinel. -/
theorem organizeTreeData_dangling_parent_cex :
    subTargetFolder [⟨"fX".data, "X".data, none⟩]
        ⟨"s1".data, "S".data, some "ghost".data, "X".data⟩ = "fX".data ∧
    "s1".data ∈ childrenOf [⟨"fX".data, "X".data, none⟩]
        [⟨"s1".data, "S".data, some "ghost".data, "X".data⟩] "fX".data ∧
    "s1".data ∉ childrenOf [⟨"fX".data, "X".data, none⟩]
        [⟨"s1".data, "S".data, some "ghost".data, "X".data⟩] rootId ∧
    "fX".data ≠ rootId := by
  decide

theorem subTargetFolder_fallback {foldersData : List Folder} {s : SubObj}
    (hfid : s.folder_id = none ∨ s.folder_id = some [] ∨
      (∃ p, s.folder_id = some p ∧
        ((allFoldersWithRoot foldersData).any (fun g => decide (g.id = p))) = false)) :
    subTargetFolder foldersData s
      = if ¬s.folder_path.isEmpty
          then (findFolderIdByPath foldersData s.folder_path).getD rootId
          else rootId := by
  unfold subTargetFolder
  have hcond : ¬(truthyOpt s.folder_id = true ∧
      (allFoldersWithRoot foldersData).any
        (fun f => decide (f.id = s.folder_id.getD [])) = true) := by
    rcases hfid with h | h | ⟨p, hp, hany⟩
    · simp [truthyOpt, h]
    · simp [truthyOpt, h]
    · rw [hp]
      rintro ⟨_, habs⟩
      rw [show (some p).getD [] = p from rfl] at habs
      rw [hany] at habs
      cases habs
  rw [if_neg hcond]

/-- C8 (amended): `organizeTreeData` places every snapshot folder and
subprompt into the rooted tree, never failing: a folder with a truthy
parent goes into that parent's `subfolders` when the parent exists in the
arena and into `rootFolders` otherwise; a folder with a falsy parent goes
into `rootFolders`; a subprompt with an existing truthy `folder_id` is
pushed onto that folder's `children`; a subprompt whose `folder_id` is
falsy or dangling falls back to the legacy `folder_path`: with a non-empty
path matching an existing folder's computed path it is pushed onto that
folder's `children`, and only with an empty path or a path matching no
folder is it pushed onto the root sentinel's `children`. -/
theorem organizeTreeData_placement :
    (∀ (foldersData : List Folder) (f : Folder),
      f ∈ foldersData → f ∈ allFoldersWithRoot foldersData) ∧
    (∀ (foldersData : List Folder) (f : Folder) (p : Str),
      f ∈ foldersData → f.id ≠ rootId → f.parent_id = some p → p ≠ [] →
      (((allFoldersWithRoot foldersData).any (fun g => decide (g.id = p))) = true →
          f.id ∈ subfoldersOf foldersData p) ∧
        (((allFoldersWithRoot foldersData).any (fun g => decide (g.id = p))) = false →
          f.id ∈ rootFoldersOf foldersData)) ∧
    (∀ (foldersData : List Folder) (f : Folder),
      f ∈ foldersData → f.id ≠ rootId →
      (f.parent_id = none ∨ f.parent_id = some []) →
      f.id ∈ rootFoldersOf foldersData) ∧
    (∀ (foldersData : List Folder) (subs : List SubObj) (s : SubObj) (p : Str),
      s ∈ subs → s.folder_id = some p → p ≠ [] →
      ((allFoldersWithRoot foldersData).any (fun g => decide (g.id = p))) = true →
      s.id ∈ childrenOf foldersData subs p) ∧
    (∀ (foldersData : List Folder) (subs : List SubObj) (s : SubObj),
      s ∈ subs → s.folder_path = [] →
      (s.folder_id = none ∨ s.folder_id = some [] ∨
        (∃ p, s.folder_id = some p ∧
          ((allFoldersWithRoot foldersData).any (fun g => decide (g.id = p))) = false)) →
      s.id ∈ childrenOf foldersData subs rootId) ∧
    (∀ (foldersData : List Folder) (subs : List SubObj) (s : SubObj) (fid : Str),
      s ∈ subs → s.folder_path ≠ [] →
      (s.folder_id = none ∨ s.folder_id = some [] ∨
        (∃ p, s.folder_id = some p ∧
          ((allFoldersWithRoot foldersData).any (fun g => decide (g.id = p))) = false)) →
      findFolderIdByPath foldersData s.folder_path = some fid →
      s.id ∈ childrenOf foldersData subs fid) ∧
    (∀ (foldersData : List Folder) (subs : List SubObj) (s : SubObj),
      s ∈ subs → s.folder_path ≠ [] →
      (s.folder_id = none ∨ s.folder_id = some [] ∨
        (∃ p, s.folder_id = some p ∧
          ((allFoldersWithRoot foldersData).any (fun g => decide (g.id = p))) = false)) →
      findFolderIdByPath foldersData s.folder_path = none →
      s.id ∈ childrenOf foldersData subs rootId) := by
  refine ⟨fun _ _ => mem_allFoldersWithRoot, ?_, ?_, ?_, ?_, ?_, ?_⟩
  · intro foldersData f p hf hroot hp hp0
    constructor
    · intro hany
      unfold subfoldersOf
      refine List.mem_map.mpr ⟨f, List.mem_filter.mpr ⟨mem_allFoldersWithRoot hf, ?_⟩, rfl⟩
      simp [truthyOpt, hp, hroot, hp0, hany, List.isEmpty_iff]
    · intro hany
      unfold rootFoldersOf
      refine List.mem_map.mpr ⟨f, List.mem_filter.mpr ⟨mem_allFoldersWithRoot hf, ?_⟩, rfl⟩
      simp [truthyOpt, hp, hroot, hany, List.isEmpty_iff]
  · intro foldersData f hf hroot hp
    unfold rootFoldersOf
    refine List.mem_map.mpr ⟨f, List.mem_filter.mpr ⟨mem_allFoldersWithRoot hf, ?_⟩, rfl⟩
    rcases hp with hp | hp <;> simp [truthyOpt, hp, hroot]
  · intro foldersData subs s p hs hp hp0 hany
    unfold childrenOf
    refine List.mem_map.mpr ⟨s, List.mem_filter.mpr ⟨hs, ?_⟩, rfl⟩
    have htarget : subTargetFolder foldersData s = p := by
      unfold subTargetFolder
      rw [if_pos ⟨by simp [truthyOpt, hp, List.isEmpty_iff, hp0], by rw [hp]; exact hany⟩]
      rw [hp]
      rfl
    simp [htarget]
  · intro foldersData subs s hs hpath hfid
    unfold childrenOf
    refine List.mem_map.mpr ⟨s, List.mem_filter.mpr ⟨hs, ?_⟩, rfl⟩
    have htarget : subTargetFolder foldersData s = rootId := by
      rw [subTargetFolder_fallback hfid, if_neg (by simp [hpath])]
    simp [htarget]
  · intro foldersData subs s fid hs hpath hfid hfind
    unfold childrenOf
    refine List.mem_map.mpr ⟨s, List.mem_filter.mpr ⟨hs, ?_⟩, rfl⟩
    have htarget : subTargetFolder foldersData s = fid := by
      rw [subTargetFolder_fallback hfid,
        if_pos (by simp [List.isEmpty_iff, hpath]), hfind]
      rfl
    simp [htarget]
  · intro foldersData subs s hs hpath hfid hfind
    unfold childrenOf
    refine List.mem_map.mpr ⟨s, List.mem_filter.mpr ⟨hs, ?_⟩, rfl⟩
    have htarget : subTargetFolder foldersData s = rootId := by
      rw [subTargetFolder_fallback hfid,
        if_pos (by simp [List.isEmpty_iff, hpath]), hfind]
      rfl
    simp [htarget]

/-- Witness for the amended C8 at concrete snapshots: a subprompt placed by
its `folder_id`, a dangling one with no path landing under the root
sentinel, a root-level folder, the counterexample subprompt landing under
its path-matched folder, and a dangling one whose path matches nothing
landing under the root sentinel. -/
theorem organizeTreeData_placement_witness :
    "s1".data ∈ childrenOf [⟨"f1".data, "Folder1".data, none⟩]
        [⟨"s1".data, "S".data, some "f1".data, []⟩,
         ⟨"s2".data, "T".data, some "ghost".data, []⟩] "f1".data ∧
    "s2".data ∈ childrenOf [⟨"f1".data, "Folder1".data, none⟩]
        [⟨"s1".data, "S".data, some "f1".data, []⟩,
         ⟨"s2".data, "T".data, some "ghost".data, []⟩] rootId ∧
    "f1".data ∈ rootFoldersOf [⟨"f1".data, "Folder1".data, none⟩] ∧
    "s1".data ∈ childrenOf [⟨"fX".data, "X".data, none⟩]
        [⟨"s1".data, "S".data, some "ghost".data, "X".data⟩] "fX".data ∧
    "s3".data ∈ childrenOf [⟨"fX".data, "X".data, none⟩]
        [⟨"s3".data, "U".data, some "ghost".data, "Nope".data⟩] rootId := by
  refine ⟨?_, ?_, ?_, ?_, ?_⟩
  · exact organizeTreeData_placement.2.2.2.1
      [⟨"f1".data, "Folder1".data, none⟩]
      [⟨"s1".data, "S".data, some "f1".data, []⟩,
       ⟨"s2".data, "T".data, some "ghost".data, []⟩]
      ⟨"s1".data, "S".data, some "f1".data, []⟩ "f1".data
      (by decide) rfl (by decide) (by decide)
  · exact organizeTreeData_placement.2.2.2.2.1
      [⟨"f1".data, "Folder1".data, none⟩]
      [⟨"s1".data, "S".data, some "f1".data, []⟩,
       ⟨"s2".data, "T".data, some "ghost".data, []⟩]
      ⟨"s2".data, "T".data, some "ghost".data, []⟩
      (by decide) rfl (Or.inr (Or.inr ⟨"ghost".data, rfl, by decide⟩))
  · exact organizeTreeData_placement.2.2.1
      [⟨"f1".data, "Folder1".data, none⟩] ⟨"f1".data, "Folder1".data, none⟩
      (by decide) (by decide) (Or.inl rfl)
  · exact organizeTreeData_placement.2.2.2.2.2.1
      [⟨"fX".data, "X".data, none⟩]
      [⟨"s1".data, "S".data, some "ghost".data, "X".data⟩]
      ⟨"s1".data, "S".data, some "ghost".data, "X".data⟩ "fX".data
      (by decide) (by decide) (Or.inr (Or.inr ⟨"ghost".data, rfl, by decide⟩))
      (by decide)
  · exact organizeTreeData_placement.2.2.2.2.2.2
      [⟨"fX".data, "X".data, none⟩]
      [⟨"s3".data, "U".data, some "ghost".data, "Nope".data⟩]
      ⟨"s3".data, "U".data, some "ghost".data, "Nope".data⟩
      (by decide) (by decide) (Or.inr (Or.inr ⟨"ghost".data, rfl, by decide⟩))
      (by decide)

end PromptCompanion
